import Mathlib

/-!
Shallow embedding of the request-dispatch dataplane of the api-one gateway,
together with theorems settling the frozen claims about it.

Conventions of the embedding:
* Go strings are modelled as `List Char` (`GoStr`); `len(s)` on a Go string
  counts UTF-8 bytes and is modelled by `goLen`.
* `time.Duration` and Unix timestamps are nanosecond/second integers.
* Go `float64` arithmetic is modelled by exact rationals `ℚ` (and by `ℝ`
  where the code takes square roots); rounding error of IEEE doubles is
  outside the model.
* Stateful methods become pure functions threading the receiver state, with
  `time.Now()` passed in as an explicit `now` argument and `math/rand` draws
  passed in as explicit arguments.
-/

namespace Spec2Proof

/-! ### Go string helpers -/

/-- Go strings, modelled as their sequence of runes. -/
abbrev GoStr := List Char

/-- Convert a Lean string literal to a `GoStr`. -/
def gs (s : String) : GoStr := s.toList

/-- UTF-8 encoding of one rune, as Go produces for `[]byte(string)`. -/
def utf8Bytes (c : Char) : List Nat :=
  let n := c.toNat
  if n < 0x80 then [n]
  else if n < 0x800 then [0xC0 + n / 0x40, 0x80 + n % 0x40]
  else if n < 0x10000 then
    [0xE0 + n / 0x1000, 0x80 + n / 0x40 % 0x40, 0x80 + n % 0x40]
  else
    [0xF0 + n / 0x40000, 0x80 + n / 0x1000 % 0x40, 0x80 + n / 0x40 % 0x40,
     0x80 + n % 0x40]

/-- UTF-8 byte sequence of a Go string. -/
def utf8Encode (s : GoStr) : List Nat := s.flatMap utf8Bytes

/-- Go `len(s)` on a string: the number of UTF-8 bytes. -/
def goLen (s : GoStr) : Nat := (s.map Char.utf8Size).sum

/-- Go `strings.Contains(s, sub)` (for the ASCII patterns used by the code,
byte-level and rune-level containment coincide). -/
def goContains (s sub : GoStr) : Bool := decide (sub.IsInfix s)

/-- Go `strings.ToLower`. -/
def goToLower (s : GoStr) : GoStr := s.map Char.toLower

/-- Go `strings.TrimSpace`. -/
def goTrimSpace (s : GoStr) : GoStr :=
  ((s.dropWhile Char.isWhitespace).reverse.dropWhile Char.isWhitespace).reverse

/-- Go `strings.Fields`: whitespace-separated words, empties removed. -/
def goFields (s : GoStr) : List GoStr :=
  (s.splitOnP Char.isWhitespace).filter (fun w => !w.isEmpty)

/-! ### Circuit breaker (src/common/helper/backoff.go, package circuitbreaker) -/

/-- Breaker state: `StateClosed`, `StateOpen`, `StateHalfOpen`. -/
inductive BreakerState where
  | closed
  | opened
  | halfOpen
deriving DecidableEq, Repr

/-- Go `Counts` of the circuit breaker. -/
structure BreakerCounts where
  requests : Nat
  totalSuccesses : Nat
  totalFailures : Nat
  consecutiveSuccesses : Nat
  consecutiveFailures : Nat
deriving DecidableEq, Repr

/-- The all-zero `Counts{}` value. -/
def BreakerCounts.zero : BreakerCounts := ⟨0, 0, 0, 0, 0⟩

/-- Go `Settings` of a circuit breaker (name and listener omitted: they do not
affect the transition logic). `timeout` is in nanoseconds. -/
structure BreakerSettings where
  maxFailures : Nat
  failureRatio : ℚ
  minSamples : Nat
  timeout : Nat
  halfOpenMaxRequests : Nat
  successThreshold : Nat

/-- Go `DefaultSettings`: maxFailures=5, failureRatio=0.5, minSamples=10,
timeout=30s, halfOpenMaxRequests=3, successThreshold=2. -/
def defaultBreakerSettings : BreakerSettings :=
  { maxFailures := 5, failureRatio := 1/2, minSamples := 10,
    timeout := 30000000000, halfOpenMaxRequests := 3, successThreshold := 2 }

/-- The mutable state of one `CircuitBreaker`. -/
structure CircuitBreaker where
  settings : BreakerSettings
  state : BreakerState
  counts : BreakerCounts
  lastStateChange : Nat
  lastFailure : Nat
  halfOpenCount : Int

/-- Errors returned by `Allow`. -/
inductive BreakerError where
  | circuitOpen
  | tooManyRequests
deriving DecidableEq, Repr

/-- Go `New(settings)`: zero-or-missing parameters fall back to defaults. -/
def CircuitBreaker.new (s : BreakerSettings) (now : Nat) : CircuitBreaker :=
  let s := { s with
    maxFailures := if s.maxFailures = 0 then 5 else s.maxFailures,
    timeout := if s.timeout = 0 then 30000000000 else s.timeout,
    halfOpenMaxRequests :=
      if s.halfOpenMaxRequests = 0 then 3 else s.halfOpenMaxRequests,
    successThreshold := if s.successThreshold = 0 then 2 else s.successThreshold }
  { settings := s, state := .closed, counts := .zero,
    lastStateChange := now, lastFailure := 0, halfOpenCount := 0 }

/-- Go `transitionToLocked`: change state, stamp the transition time, reset the
half-open counter when entering HALF_OPEN and all counts when entering CLOSED. -/
def CircuitBreaker.transitionTo (cb : CircuitBreaker) (newState : BreakerState)
    (now : Nat) : CircuitBreaker :=
  if cb.state = newState then cb
  else
    let cb := { cb with state := newState, lastStateChange := now }
    let cb := if newState = .halfOpen then { cb with halfOpenCount := 0 } else cb
    if newState = .closed then { cb with counts := .zero } else cb

/-- Go `allowHalfOpen`: admit at most `halfOpenMaxRequests` concurrent probes. -/
def CircuitBreaker.allowHalfOpen (cb : CircuitBreaker) :
    Option BreakerError × CircuitBreaker :=
  let count := cb.halfOpenCount + 1
  if (cb.settings.halfOpenMaxRequests : Int) < count then
    (some .tooManyRequests, cb)
  else
    (none, { cb with halfOpenCount := count })

/-- Go `Allow`: in OPEN, transition to HALF_OPEN once the timeout has elapsed
since the last state change and admit the probe. -/
def CircuitBreaker.allow (cb : CircuitBreaker) (now : Nat) :
    Option BreakerError × CircuitBreaker :=
  match cb.state with
  | .closed => (none, cb)
  | .opened =>
      if cb.settings.timeout ≤ now - cb.lastStateChange then
        (cb.transitionTo .halfOpen now).allowHalfOpen
      else
        (some .circuitOpen, cb)
  | .halfOpen => cb.allowHalfOpen

/-- Go `shouldOpen`: consecutive-failure threshold, or failure ratio once
`minSamples` requests have been observed. -/
def CircuitBreaker.shouldOpen (cb : CircuitBreaker) : Bool :=
  if cb.settings.maxFailures ≤ cb.counts.consecutiveFailures then true
  else if 0 < cb.settings.failureRatio ∧ cb.settings.minSamples ≤ cb.counts.requests ∧
      cb.settings.failureRatio ≤
        (cb.counts.totalFailures : ℚ) / (cb.counts.requests : ℚ) then true
  else false

/-- Go `RecordSuccess`. -/
def CircuitBreaker.recordSuccess (cb : CircuitBreaker) (now : Nat) : CircuitBreaker :=
  let c := cb.counts
  let cb := { cb with counts :=
    { c with requests := c.requests + 1, totalSuccesses := c.totalSuccesses + 1,
             consecutiveSuccesses := c.consecutiveSuccesses + 1,
             consecutiveFailures := 0 } }
  if cb.state = .halfOpen then
    let cb := { cb with halfOpenCount := cb.halfOpenCount - 1 }
    if cb.settings.successThreshold ≤ cb.counts.consecutiveSuccesses then
      cb.transitionTo .closed now
    else cb
  else cb

/-- Go `RecordFailure`. -/
def CircuitBreaker.recordFailure (cb : CircuitBreaker) (now : Nat) : CircuitBreaker :=
  let c := cb.counts
  let c := { c with requests := c.requests + 1, totalFailures := c.totalFailures + 1,
                    consecutiveFailures := c.consecutiveFailures + 1,
                    consecutiveSuccesses := 0 }
  let cb := { cb with counts := c, lastFailure := now }
  match cb.state with
  | .closed => if cb.shouldOpen then cb.transitionTo .opened now else cb
  | .halfOpen => ({ cb with halfOpenCount := cb.halfOpenCount - 1 }).transitionTo .opened now
  | .opened => cb

/-- Breaker settings of claim C1: maxFailures=3, successThreshold=2, other
parameters default. -/
def c1Settings : BreakerSettings :=
  { defaultBreakerSettings with maxFailures := 3, successThreshold := 2 }

/-- C1. Circuit breaker state machine: with maxFailures=3 and
successThreshold=2 (other parameters default), starting CLOSED with zeroed
counters, three consecutive `RecordFailure` calls leave the state OPEN; once
the configured timeout has elapsed since that transition, the next `Allow`
call transitions the breaker to HALF_OPEN and admits the probe; after one
`RecordSuccess` in HALF_OPEN the state is still HALF_OPEN, and after a second
consecutive `RecordSuccess` the state is CLOSED with all counts reset to
zero. -/
theorem c1_circuit_breaker_transitions (t0 t1 t2 t3 t4 t5 t6 : Nat)
    (htimeout : c1Settings.timeout ≤ t4 - t3) :
    let b0 := CircuitBreaker.new c1Settings t0
    let b3 := ((b0.recordFailure t1).recordFailure t2).recordFailure t3
    ((b0.recordFailure t1).state = .closed ∧
      ((b0.recordFailure t1).recordFailure t2).state = .closed ∧
      b3.state = .opened ∧ b3.lastStateChange = t3) ∧
    (b3.allow t4).1 = none ∧ (b3.allow t4).2.state = .halfOpen ∧
    ((b3.allow t4).2.recordSuccess t5).state = .halfOpen ∧
    (((b3.allow t4).2.recordSuccess t5).recordSuccess t6).state = .closed ∧
    (((b3.allow t4).2.recordSuccess t5).recordSuccess t6).counts = .zero := by
  simp only [c1Settings, defaultBreakerSettings] at htimeout
  simp only [CircuitBreaker.new, c1Settings, defaultBreakerSettings,
    CircuitBreaker.recordFailure, CircuitBreaker.shouldOpen,
    CircuitBreaker.transitionTo, CircuitBreaker.allow,
    CircuitBreaker.allowHalfOpen, CircuitBreaker.recordSuccess,
    BreakerCounts.zero, htimeout]
  simp [htimeout]

/-- Witness for C1 at concrete times. -/
theorem c1_circuit_breaker_transitions_witness :
    let b0 := CircuitBreaker.new c1Settings 0
    let b3 := ((b0.recordFailure 1).recordFailure 2).recordFailure 3
    (b3.allow 30000000003).2.state = .halfOpen ∧
    (((b3.allow 30000000003).2.recordSuccess 4).recordSuccess 5).state = .closed := by
  have h := c1_circuit_breaker_transitions 0 1 2 3 30000000003 4 5
    (by norm_num [c1Settings, defaultBreakerSettings])
  exact ⟨h.2.2.1, h.2.2.2.2.1⟩

/-! ### Exponential backoff (src/common/helper/backoff.go, package helper) -/

/-- Go `BackoffConfig`; intervals are nanoseconds (`time.Duration`). -/
structure BackoffConfig where
  initialInterval : Int
  maxInterval : Int
  multiplier : ℚ
  jitterFactor : ℚ
  maxRetries : Nat

/-- Go `DefaultBackoffConfig`: 100 ms initial, 30 s max, multiplier 2.0,
jitter 0.3, 3 retries. -/
def DefaultBackoffConfig : BackoffConfig :=
  { initialInterval := 100000000, maxInterval := 30000000000,
    multiplier := 2, jitterFactor := 3/10, maxRetries := 3 }

/-- Truncation toward zero, as Go `time.Duration(f)` converts float64 to
int64. -/
def goTruncToInt (q : ℚ) : Int := if q < 0 then -⌊-q⌋ else ⌊q⌋

/-- Go `ExponentialBackoff(attempt, config)` with the `rand.Float64()` draw `u`
passed in explicitly. -/
def ExponentialBackoff (attempt : Int) (config : BackoffConfig) (u : ℚ) : Int :=
  let attempt := if attempt < 0 then 0 else attempt
  let interval : ℚ := (config.initialInterval : ℚ) * config.multiplier ^ attempt.toNat
  let interval :=
    if (config.maxInterval : ℚ) < interval then (config.maxInterval : ℚ) else interval
  let interval :=
    if 0 < config.jitterFactor then
      interval + interval * config.jitterFactor * (2 * u - 1)
    else interval
  let interval := if interval < 0 then (config.initialInterval : ℚ) else interval
  goTruncToInt interval

/-- Flooring `i·(1 + 0.3·(2u−1))` stays within ±30% of `i` whenever `0.7·i`
is an integer. -/
theorem jitterFloorBounds (i : ℚ) (m : ℤ) (u : ℚ) (hu0 : 0 ≤ u) (hu1 : u < 1)
    (hm : (m : ℚ) = 7/10 * i) (hi : 0 < i) :
    7/10 * i ≤ ((⌊i + i * (3/10) * (2 * u - 1)⌋ : ℤ) : ℚ) ∧
    ((⌊i + i * (3/10) * (2 * u - 1)⌋ : ℤ) : ℚ) ≤ 13/10 * i := by
  have hlow : 7/10 * i ≤ i + i * (3/10) * (2 * u - 1) := by nlinarith
  have hhigh : i + i * (3/10) * (2 * u - 1) ≤ 13/10 * i := by nlinarith
  refine ⟨?_, le_trans (Int.floor_le _) hhigh⟩
  have h1 : m ≤ ⌊i + i * (3/10) * (2 * u - 1)⌋ := by
    refine Int.le_floor.mpr ?_
    rw [hm]; exact hlow
  calc 7/10 * i = (m : ℚ) := hm.symm
    _ ≤ ((⌊i + i * (3/10) * (2 * u - 1)⌋ : ℤ) : ℚ) := by exact_mod_cast h1

/-- C9. Retry backoff: for every attempt `a ≥ 0` and every jitter draw
`u ∈ [0,1)`, the duration returned by `ExponentialBackoff` under the default
configuration (100 ms / 30 s / 2.0 / 0.3) lies within a factor of
`1 ± JitterFactor` of `min(InitialInterval · Multiplier^a, MaxInterval)`. -/
theorem c9_backoff_bounds (a : Int) (u : ℚ) (ha : 0 ≤ a) (hu0 : 0 ≤ u)
    (hu1 : u < 1) :
    7/10 * min ((100000000 : ℚ) * 2 ^ a.toNat) 30000000000 ≤
      ((ExponentialBackoff a DefaultBackoffConfig u : ℤ) : ℚ) ∧
    ((ExponentialBackoff a DefaultBackoffConfig u : ℤ) : ℚ) ≤
      13/10 * min ((100000000 : ℚ) * 2 ^ a.toNat) 30000000000 := by
  have hi0 : (0:ℚ) < (100000000 : ℚ) * 2 ^ a.toNat := by positivity
  simp only [ExponentialBackoff, DefaultBackoffConfig, goTruncToInt]
  push_cast
  rw [if_neg (not_lt.mpr ha)]
  rw [if_pos (by norm_num : (0:ℚ) < 3/10)]
  by_cases hc : (30000000000 : ℚ) < (100000000 : ℚ) * 2 ^ a.toNat
  · rw [if_pos hc, min_eq_right (le_of_lt hc)]
    have hb := jitterFloorBounds 30000000000 21000000000 u hu0 hu1 (by norm_num)
      (by norm_num)
    have hpos : ¬ ((30000000000 : ℚ) + 30000000000 * (3/10) * (2 * u - 1) < 0) := by
      push_neg
      nlinarith [hb.1]
    rw [if_neg hpos, if_neg hpos]
    exact hb
  · rw [if_neg hc, min_eq_left (not_lt.mp hc)]
    have hm : ((70000000 * 2 ^ a.toNat : ℤ) : ℚ) = 7/10 * ((100000000 : ℚ) * 2 ^ a.toNat) := by
      push_cast
      ring
    have hb := jitterFloorBounds ((100000000 : ℚ) * 2 ^ a.toNat)
      (70000000 * 2 ^ a.toNat) u hu0 hu1 hm hi0
    have hpos : ¬ ((100000000 : ℚ) * 2 ^ a.toNat +
        (100000000 : ℚ) * 2 ^ a.toNat * (3/10) * (2 * u - 1) < 0) := by
      push_neg
      nlinarith
    rw [if_neg hpos, if_neg hpos]
    exact hb

/-- Witness for C9 at attempt 1 with jitter draw 1/2. -/
theorem c9_backoff_bounds_witness :
    7/10 * min ((100000000 : ℚ) * 2 ^ (1 : Int).toNat) 30000000000 ≤
      ((ExponentialBackoff 1 DefaultBackoffConfig (1/2) : ℤ) : ℚ) ∧
    ((ExponentialBackoff 1 DefaultBackoffConfig (1/2) : ℤ) : ℚ) ≤
      13/10 * min ((100000000 : ℚ) * 2 ^ (1 : Int).toNat) 30000000000 :=
  c9_backoff_bounds 1 (1/2) (by norm_num) (by norm_num) (by norm_num)

/-! ### Sharded sliding-window rate limiter (src/unnamed/part_002, package common) -/

/-- Go `rateLimitEntry`: request timestamps (Unix seconds) and last access. -/
structure RateLimitEntry where
  timestamps : List Int
  lastAccess : Int
deriving DecidableEq, Repr

/-- The in-place compaction loop of `Request`/`RequestWithInfo`: keep, in
order, exactly the timestamps with `ts > now − duration`. -/
def dropExpired (timestamps : List Int) (windowStart : Int) : List Int :=
  timestamps.filter (fun ts => windowStart < ts)

/-- Go `Request` acting on the entry stored for one key; a missing entry is
created empty, as the code does on first use. Shard selection by FNV-1a hash
only partitions the key space across locks and does not change per-key
behavior, so the state is the single entry of the requested key. -/
def ShardedRateLimiter.requestEntry (entry : Option RateLimitEntry) (now : Int)
    (maxRequestNum : Nat) (duration : Int) : Bool × RateLimitEntry :=
  let e := entry.getD { timestamps := [], lastAccess := now }
  let e := { e with lastAccess := now }
  let ts := dropExpired e.timestamps (now - duration)
  if ts.length < maxRequestNum then
    (true, { e with timestamps := ts ++ [now] })
  else
    (false, { e with timestamps := ts })

/-- Go `RequestWithInfo` acting on the entry stored for one key: returns
`(allowed, remaining, resetAt)` and the updated entry. -/
def ShardedRateLimiter.requestWithInfoEntry (entry : Option RateLimitEntry)
    (now : Int) (maxRequestNum : Nat) (duration : Int) :
    (Bool × Int × Int) × RateLimitEntry :=
  let e := entry.getD { timestamps := [], lastAccess := now }
  let e := { e with lastAccess := now }
  let ts := dropExpired e.timestamps (now - duration)
  let oldest := ts.foldl min now
  let resetAt := if ts.isEmpty then now + duration else oldest + duration
  if ts.length < maxRequestNum then
    ((true, (maxRequestNum : Int) - ((ts.length : Int) + 1), resetAt),
      { e with timestamps := ts ++ [now] })
  else
    ((false, 0, resetAt), { e with timestamps := ts })

/-- C3. Sliding-window rate limiter: every call first drops the stored
timestamps at or before `now − W`, then allows and appends `now` iff fewer
than `L` timestamps remain; for limit 5 and window 1 s, five calls at second
0 are all allowed, an immediate sixth call is denied with `resetAt` equal to
the oldest surviving timestamp plus the window, and any further call from
second 1 on is allowed again. -/
theorem c3_rate_limiter_window :
    (∀ (entry : Option RateLimitEntry) (now : Int) (L : Nat) (W : Int),
      1 ≤ L →
      ((ShardedRateLimiter.requestEntry entry now L W).1 = true ↔
        (dropExpired (entry.getD ⟨[], now⟩).timestamps (now - W)).length < L) ∧
      (ShardedRateLimiter.requestEntry entry now L W).2.timestamps =
        dropExpired (entry.getD ⟨[], now⟩).timestamps (now - W) ++
          (if (dropExpired (entry.getD ⟨[], now⟩).timestamps (now - W)).length < L
            then [now] else []) ∧
      ((ShardedRateLimiter.requestWithInfoEntry entry now L W).1.1 = true ↔
        (dropExpired (entry.getD ⟨[], now⟩).timestamps (now - W)).length < L) ∧
      (¬ (dropExpired (entry.getD ⟨[], now⟩).timestamps (now - W)).isEmpty →
        (ShardedRateLimiter.requestWithInfoEntry entry now L W).1.2.2 =
          (dropExpired (entry.getD ⟨[], now⟩).timestamps (now - W)).foldl min now
            + W)) ∧
    (let r1 := ShardedRateLimiter.requestEntry none 0 5 1
     let r2 := ShardedRateLimiter.requestEntry (some r1.2) 0 5 1
     let r3 := ShardedRateLimiter.requestEntry (some r2.2) 0 5 1
     let r4 := ShardedRateLimiter.requestEntry (some r3.2) 0 5 1
     let r5 := ShardedRateLimiter.requestEntry (some r4.2) 0 5 1
     let r6 := ShardedRateLimiter.requestWithInfoEntry (some r5.2) 0 5 1
     (r1.1 = true ∧ r2.1 = true ∧ r3.1 = true ∧ r4.1 = true ∧ r5.1 = true) ∧
     (r6.1.1 = false ∧ r6.1.2.2 = 0 + 1) ∧
     r6.2 = ⟨[0, 0, 0, 0, 0], 0⟩ ∧
     (∀ t : Int, 1 ≤ t →
       (ShardedRateLimiter.requestEntry (some ⟨[0, 0, 0, 0, 0], 0⟩) t 5 1).1
         = true)) := by
  constructor
  · intro entry now L W _
    refine ⟨?_, ?_, ?_, ?_⟩
    · simp only [ShardedRateLimiter.requestEntry]
      split
      · simpa
      · rename_i h
        simpa using h
    · simp only [ShardedRateLimiter.requestEntry]
      split
      · simp_all
      · simp_all
    · simp only [ShardedRateLimiter.requestWithInfoEntry]
      split
      · simpa
      · rename_i h
        simpa using h
    · intro hne
      simp only [ShardedRateLimiter.requestWithInfoEntry]
      split
      · simp_all [if_neg]
      · simp_all [if_neg]
  · refine ⟨by decide, by decide, by decide, ?_⟩
    intro t ht
    have hdrop : dropExpired [0, 0, 0, 0, 0] (t - 1) = [] := by
      simp only [dropExpired, List.filter]
      have : ¬ (t - 1 < 0) := by omega
      simp [this]
    simp [ShardedRateLimiter.requestEntry, hdrop]

/-! ### Ingress rate-limit middleware (src/middleware/rate-limit.go) -/

/-- Result of `common.SlidingWindowRateLimit`, the remote Lua-scripted
sliding window; `resetAt` is a Unix timestamp. -/
structure RemoteRateLimitResult where
  allowed : Bool
  remaining : Int
  resetAt : Int
deriving DecidableEq, Repr

/-- Observable outcome of a gin middleware handler: whether the handler chain
was aborted, the HTTP status it set (if any), and the numeric response
headers it set. -/
structure MiddlewareOutcome where
  aborted : Bool
  status : Option Nat
  headers : List (GoStr × Int)
deriving DecidableEq, Repr

/-- Go `redisRateLimiterOptimized`, as a function of the remote call's outcome
(`err ≠ nil` is `Except.error`). On a backend error the middleware logs and
calls `c.Next()` without setting any status ("fail open"). -/
def redisRateLimiterOptimized (result : Except GoStr RemoteRateLimitResult)
    (maxRequestNum : Nat) (now : Int) : MiddlewareOutcome :=
  match result with
  | .error _ => { aborted := false, status := none, headers := [] }
  | .ok r =>
      let headers := [(gs "X-RateLimit-Limit", (maxRequestNum : Int)),
                      (gs "X-RateLimit-Remaining", r.remaining),
                      (gs "X-RateLimit-Reset", r.resetAt)]
      if !r.allowed then
        { aborted := true, status := some 429,
          headers := headers ++ [(gs "Retry-After", r.resetAt - now + 1)] }
      else
        { aborted := false, status := none, headers := headers }

/-- Go `TokenRateLimit`, as a function of the configuration flags and the
backend interaction: `remoteResult` is what `common.SlidingWindowRateLimit`
returned when Redis is enabled; `localEntry` is the sharded-limiter entry for
the token key otherwise. -/
def TokenRateLimit (maxRequestNum : Nat) (debugEnabled redisEnabled : Bool)
    (remoteResult : Except GoStr RemoteRateLimitResult)
    (localEntry : Option RateLimitEntry) (duration : Int) (now : Int) : Bool :=
  if maxRequestNum = 0 || debugEnabled then true
  else if redisEnabled then
    match remoteResult with
    | .error _ => true
    | .ok r => r.allowed
  else
    (ShardedRateLimiter.requestEntry localEntry now maxRequestNum duration).1

/-- C4. Rate-limiter fail-open: whenever the remote rate-limit backend call
returns an error, the ingress middleware lets the request continue without a
429 response, and `TokenRateLimit` returns true. -/
theorem c4_rate_limit_fail_open (e : GoStr) (maxRequestNum : Nat) (now : Int)
    (debugEnabled : Bool) (localEntry : Option RateLimitEntry) (duration : Int) :
    (redisRateLimiterOptimized (.error e) maxRequestNum now).aborted = false ∧
    (redisRateLimiterOptimized (.error e) maxRequestNum now).status = none ∧
    TokenRateLimit maxRequestNum debugEnabled true (.error e) localEntry
      duration now = true := by
  refine ⟨rfl, rfl, ?_⟩
  simp only [TokenRateLimit]
  split
  · rfl
  · rfl

/-! ### Channel health (src/model/channel_healthiest.go) -/

/-- Go `ChannelHealth` counters; latencies in nanoseconds. The timestamp fields
(`LastLatency`, `LastError`, `LastSuccess`) feed no derived value used by the
claims and are omitted. -/
structure ChannelHealth where
  channelId : Nat
  totalRequests : Nat
  successCount : Nat
  failureCount : Nat
  totalLatency : Nat
  consecutiveFail : Nat
deriving DecidableEq, Repr

/-- Go `SuccessRate`: 1.0 with no data, else successes/total. -/
def ChannelHealth.successRate (h : ChannelHealth) : ℚ :=
  if h.totalRequests = 0 then 1
  else (h.successCount : ℚ) / (h.totalRequests : ℚ)

/-- Go `AvgLatency` in nanoseconds: 100 ms with no data, else the integer
division `totalLatency / totalRequests`. -/
def ChannelHealth.avgLatency (h : ChannelHealth) : Nat :=
  if h.totalRequests = 0 then 100000000 else h.totalLatency / h.totalRequests

/-- Go `Duration.Milliseconds()`: whole milliseconds, truncated. -/
def durationMilliseconds (d : Nat) : Nat := d / 1000000

/-- Go `Score(weight)`: success rate times weight times the consecutive-failure
penalty, scaled by 1000 and divided by the average latency in whole
milliseconds clamped below at 1. -/
def ChannelHealth.score (h : ChannelHealth) (weight : ℚ) : ℚ :=
  let weight := if weight ≤ 0 then 1 else weight
  let successRate := h.successRate
  let avgLatencyMs : ℚ := (durationMilliseconds h.avgLatency : ℚ)
  let avgLatencyMs := if avgLatencyMs < 1 then 1 else avgLatencyMs
  let failPenalty : ℚ :=
    if 0 < h.consecutiveFail then 1 / (1 + (h.consecutiveFail : ℚ)) else 1
  successRate * weight * failPenalty * 1000 / avgLatencyMs

/-- Score formula exactly as claim C5 words it: `avgLatencyMs` is
`AvgLatency()` expressed in milliseconds, with no truncation or clamping. -/
def claimedScore (h : ChannelHealth) (weight : ℚ) : ℚ :=
  h.successRate * weight * (1 / (1 + (h.consecutiveFail : ℚ))) * 1000 /
    ((h.avgLatency : ℚ) / 1000000)

/-- Score formula as amended: `avgLatencyMs` is `AvgLatency()` in whole
milliseconds clamped below at 1. -/
def claimedScoreAmended (h : ChannelHealth) (weight : ℚ) : ℚ :=
  h.successRate * weight * (1 / (1 + (h.consecutiveFail : ℚ))) * 1000 /
    max 1 (durationMilliseconds h.avgLatency : ℚ)

/-- Counterexample to C5 as stated: a healthy channel with a 0.5 ms average
latency scores 1000 in the code (the millisecond count truncates to 0 and is
clamped to 1), while the claimed formula yields 2000. -/
theorem c5_score_counterexample :
    (ChannelHealth.score ⟨1, 1, 1, 0, 500000, 0⟩ 1 = 1000) ∧
    (claimedScore ⟨1, 1, 1, 0, 500000, 0⟩ 1 = 2000) ∧
    ChannelHealth.score ⟨1, 1, 1, 0, 500000, 0⟩ 1 ≠
      claimedScore ⟨1, 1, 1, 0, 500000, 0⟩ 1 := by
  refine ⟨?_, ?_, ?_⟩ <;>
    norm_num [ChannelHealth.score, claimedScore, ChannelHealth.successRate,
      ChannelHealth.avgLatency, durationMilliseconds]

/-- C5 amended. Health view derivations: `SuccessRate()` is 1.0 when total=0
and successes/total otherwise; `AvgLatency()` is 100 ms when total=0 and
totalLatency/total otherwise; and for every weight > 0,
`Score(weight) = successRate · weight · failPenalty · 1000 / avgLatencyMs`
with `failPenalty = 1/(1+consecutiveFailures)` and `avgLatencyMs` the whole
milliseconds of `AvgLatency()` clamped below at 1. -/
theorem c5_health_derivations (h : ChannelHealth) (w : ℚ) (hw : 0 < w) :
    (h.successRate = if h.totalRequests = 0 then 1
      else (h.successCount : ℚ) / (h.totalRequests : ℚ)) ∧
    (h.avgLatency = if h.totalRequests = 0 then 100000000
      else h.totalLatency / h.totalRequests) ∧
    h.score w = claimedScoreAmended h w := by
  refine ⟨rfl, rfl, ?_⟩
  simp only [ChannelHealth.score, claimedScoreAmended]
  rw [if_neg (not_le.mpr hw)]
  have hmax : (if (durationMilliseconds h.avgLatency : ℚ) < 1 then 1
      else (durationMilliseconds h.avgLatency : ℚ)) =
      max 1 (durationMilliseconds h.avgLatency : ℚ) := by
    rcases le_or_lt 1 ((durationMilliseconds h.avgLatency : ℚ)) with hle | hlt
    · rw [if_neg (not_lt.mpr hle), max_eq_right hle]
    · rw [if_pos hlt, max_eq_left (le_of_lt hlt)]
  rw [hmax]
  rcases Nat.eq_zero_or_pos h.consecutiveFail with hz | hpos
  · rw [hz]
    norm_num
  · rw [if_pos hpos]

/-- Witness for C5 at a concrete health record and weight 2. -/
theorem c5_health_derivations_witness :
    ChannelHealth.score ⟨2, 4, 3, 1, 8000000, 1⟩ 2 =
      claimedScoreAmended ⟨2, 4, 3, 1, 8000000, 1⟩ 2 :=
  (c5_health_derivations ⟨2, 4, 3, 1, 8000000, 1⟩ 2 (by norm_num)).2.2

/-! ### Smart channel selector (src/model/channel_healthiest.go) -/

/-- Channel attributes consumed by selection (`Weight` and `Priority` are
nullable in the source). -/
structure Channel where
  id : Nat
  weight : Option Int
  priority : Option Int
deriving DecidableEq, Repr

/-- Modelled from the spec: `Channel.GetPriority` is declared outside the
provided sources; the spec gives a channel an "optional priority (higher
wins)", so a missing priority reads as 0. -/
def Channel.GetPriority (c : Channel) : Int := c.priority.getD 0

/-- The health tracker's channel map; `GetHealth` yields nil for untracked
channels. -/
def HealthTracker := Nat → Option ChannelHealth

/-- Go `getChannelScore`: `weight · 1000` baseline without health data, else
`Health.Score(weight)`. -/
def getChannelScore (tracker : HealthTracker) (c : Channel) : ℚ :=
  let weight : ℚ := match c.weight with
    | some w => (w : ℚ)
    | none => 1
  let weight := if weight ≤ 0 then 1 else weight
  match tracker c.id with
  | none => weight * 1000
  | some h => h.score weight

/-- Go `betterChannel`: equal scores return the first argument. -/
def betterChannel (tracker : HealthTracker) (a b : Channel) : Channel :=
  if getChannelScore tracker b ≤ getChannelScore tracker a then a else b

/-- A dummy channel for the always-in-range `getD` reads. -/
def dummyChannel : Channel := ⟨0, none, none⟩

/-- Go `SelectChannel` (power of two choices); the two `rand.Intn` draws are
passed in as `r1` (modulo `n`) and `r2` (modulo `n−1`). -/
def SelectChannel (tracker : HealthTracker) (channels : List Channel)
    (r1 r2 : Nat) : Option Channel :=
  match channels with
  | [] => none
  | [c] => some c
  | [a, b] => some (betterChannel tracker a b)
  | cs =>
      let n := cs.length
      let idx1 := r1 % n
      let i2 := r2 % (n - 1)
      let idx2 := if idx1 ≤ i2 then i2 + 1 else i2
      some (betterChannel tracker (cs.getD idx1 dummyChannel)
        (cs.getD idx2 dummyChannel))

/-- The scan of `SelectChannelWithPriority` for the first index whose
priority differs from the head's. -/
def firstDiffIdx (p0 : Int) : List Channel → Option Nat
  | [] => none
  | c :: cs =>
      if c.GetPriority ≠ p0 then some 0 else (firstDiffIdx p0 cs).map (· + 1)

/-- Go `priorityGroupEnd`: the end of the leading equal-priority group, computed
only when the first channel's priority is positive; otherwise the whole list. -/
def priorityGroupEnd (channels : List Channel) : Nat :=
  match channels with
  | [] => 0
  | c0 :: _ =>
      if 0 < c0.GetPriority then
        match firstDiffIdx c0.GetPriority channels with
        | some i => i
        | none => channels.length
      else channels.length

/-- Go `SelectChannelWithPriority`. -/
def SelectChannelWithPriority (tracker : HealthTracker)
    (channels : List Channel) (ignoreFirstPriority : Bool) (r1 r2 : Nat) :
    Option Channel :=
  match channels with
  | [] => none
  | _ =>
      let e := priorityGroupEnd channels
      let candidates :=
        if ignoreFirstPriority ∧ e < channels.length then channels.drop e
        else channels.take e
      SelectChannel tracker candidates r1 r2

/-- Go `betterChannel` returns one of its arguments. -/
theorem betterChannel_mem (tracker : HealthTracker) (a b : Channel) :
    betterChannel tracker a b = a ∨ betterChannel tracker a b = b := by
  unfold betterChannel
  split
  · exact Or.inl rfl
  · exact Or.inr rfl

/-- Whatever `SelectChannel` returns is a member of the candidate list. -/
theorem selectChannel_mem (tracker : HealthTracker) (cs : List Channel)
    (r1 r2 : Nat) (c : Channel) (h : SelectChannel tracker cs r1 r2 = some c) :
    c ∈ cs := by
  match cs, h with
  | [c'], h =>
      simp only [SelectChannel, Option.some.injEq] at h
      simp [← h]
  | [a, b], h =>
      simp only [SelectChannel, Option.some.injEq] at h
      rcases betterChannel_mem tracker a b with hm | hm <;>
        simp [← h, hm]
  | a :: b :: d :: tl, h =>
      simp only [SelectChannel, Option.some.injEq] at h
      set cs' : List Channel := a :: b :: d :: tl with hcs
      have hn : 0 < cs'.length := by simp [hcs]
      have hn1 : 0 < cs'.length - 1 := by simp [hcs]
      have h1 : r1 % cs'.length < cs'.length := Nat.mod_lt _ hn
      have h2' : r2 % (cs'.length - 1) < cs'.length - 1 := Nat.mod_lt _ hn1
      have h2 : (if r1 % cs'.length ≤ r2 % (cs'.length - 1)
          then r2 % (cs'.length - 1) + 1 else r2 % (cs'.length - 1)) < cs'.length := by
        split <;> omega
      rw [List.getD_eq_getElem cs' dummyChannel h1,
        List.getD_eq_getElem cs' dummyChannel h2] at h
      rcases betterChannel_mem tracker (cs'[r1 % cs'.length])
        (cs'[if r1 % cs'.length ≤ r2 % (cs'.length - 1)
          then r2 % (cs'.length - 1) + 1 else r2 % (cs'.length - 1)]) with hm | hm
      · rw [← h, hm]
        exact List.getElem_mem h1
      · rw [← h, hm]
        exact List.getElem_mem h2

/-- On a nonempty candidate list `SelectChannel` returns a channel. -/
theorem selectChannel_isSome (tracker : HealthTracker) (cs : List Channel)
    (r1 r2 : Nat) (hne : cs ≠ []) :
    ∃ c, SelectChannel tracker cs r1 r2 = some c := by
  match cs with
  | [] => exact absurd rfl hne
  | [c'] => exact ⟨c', rfl⟩
  | [a, b] => exact ⟨betterChannel tracker a b, rfl⟩
  | a :: b :: d :: tl => exact ⟨_, rfl⟩

/-- When `firstDiffIdx` finds nothing, every priority equals the head's. -/
theorem firstDiffIdx_none (p0 : Int) :
    ∀ l : List Channel, firstDiffIdx p0 l = none → ∀ c ∈ l, c.GetPriority = p0 := by
  intro l
  induction l with
  | nil => intro _ c hc; simp at hc
  | cons a cs ih =>
      intro hnone c hc
      by_cases ha : a.GetPriority ≠ p0
      · simp [firstDiffIdx, ha] at hnone
      · push_neg at ha
        have hrec : firstDiffIdx p0 cs = none := by
          simpa [firstDiffIdx, ha] using hnone
        rcases List.mem_cons.mp hc with h | h
        · rw [h]; exact ha
        · exact ih hrec c h

/-- When `firstDiffIdx` returns `i`, the first `i` priorities equal the
head's and the `i`-th differs. -/
theorem firstDiffIdx_some (p0 : Int) :
    ∀ (l : List Channel) (i : Nat), firstDiffIdx p0 l = some i →
      i < l.length ∧ (∀ c ∈ l.take i, c.GetPriority = p0) ∧
        ∀ h : i < l.length, (l.get ⟨i, h⟩).GetPriority ≠ p0 := by
  intro l
  induction l with
  | nil => intro i hi; simp [firstDiffIdx] at hi
  | cons a cs ih =>
      intro i hi
      by_cases ha : a.GetPriority ≠ p0
      · have h0 : i = 0 := by
          have := hi
          simp [firstDiffIdx, ha] at this
          omega
        subst h0
        exact ⟨by simp, by simp, fun h => by simpa using ha⟩
      · push_neg at ha
        have hmap : (firstDiffIdx p0 cs).map (· + 1) = some i := by
          simpa [firstDiffIdx, ha] using hi
        obtain ⟨j, hj, hji⟩ := Option.map_eq_some'.mp hmap
        subst hji
        obtain ⟨hlen, htake, hget⟩ := ih j hj
        refine ⟨by simpa using Nat.succ_lt_succ hlen, ?_, ?_⟩
        · intro c hc
          rw [List.take_succ_cons] at hc
          rcases List.mem_cons.mp hc with h | h
          · rw [h]; exact ha
          · exact htake c h
        · intro h
          exact hget (by omega)

/-- In a list sorted by descending priority whose head has priority `p0`,
everything from the first differing index on has priority strictly below
`p0`. -/
theorem drop_priority_lt (l : List Channel) (p0 : Int) (i : Nat)
    (hsorted : l.Pairwise (fun x y => y.GetPriority ≤ x.GetPriority))
    (h0 : 0 < l.length) (hp0 : (l.get ⟨0, h0⟩).GetPriority = p0)
    (hi : i < l.length) (hi0 : 0 < i)
    (hne : (l.get ⟨i, hi⟩).GetPriority ≠ p0) :
    ∀ c ∈ l.drop i, c.GetPriority < p0 := by
  have hpw := List.pairwise_iff_getElem.mp hsorted
  have hlt : (l.get ⟨i, hi⟩).GetPriority < p0 := by
    have hle : (l.get ⟨i, hi⟩).GetPriority ≤ p0 := by
      have := hpw 0 i h0 hi hi0
      rw [← hp0]
      simpa using this
    exact lt_of_le_of_ne hle hne
  intro c hc
  obtain ⟨k, hk, hck⟩ := List.mem_iff_getElem.mp hc
  have hik : i + k < l.length := by
    have := hk
    rw [List.length_drop] at this
    omega
  have hdg : (l.drop i)[k] = l[i + k] := by
    rw [List.getElem_drop]
  rcases Nat.eq_zero_or_pos k with hk0 | hkpos
  · subst hk0
    rw [← hck, hdg]
    simpa using hlt
  · have := hpw i (i + k) hi hik (by omega)
    rw [← hck, hdg]
    calc (l[i + k]).GetPriority ≤ (l[i]).GetPriority := this
      _ < p0 := by simpa using hlt

/-- C2 amended. Priority filtering holds when the leading priority is
positive — the code skips the grouping entirely when
`channels[0].GetPriority() ≤ 0`: on a non-empty candidate list sorted by
descending priority whose head priority is positive,
`SelectChannelWithPriority` with `ignoreFirstPriority=false` selects a
channel whose priority equals `channels[0]`'s (the leading tier), and with
`ignoreFirstPriority=true`, when a lower-priority suffix exists, a channel of
strictly lower priority (the complementary suffix). -/
theorem c2_priority_filtering (tracker : HealthTracker) (c0 : Channel)
    (rest : List Channel) (r1 r2 : Nat)
    (hsorted : (c0 :: rest).Pairwise (fun x y => y.GetPriority ≤ x.GetPriority))
    (hpos : 0 < c0.GetPriority) :
    (∃ c, SelectChannelWithPriority tracker (c0 :: rest) false r1 r2 = some c ∧
      c ∈ c0 :: rest ∧ c.GetPriority = c0.GetPriority) ∧
    ((∃ c' ∈ c0 :: rest, c'.GetPriority ≠ c0.GetPriority) →
      ∃ c, SelectChannelWithPriority tracker (c0 :: rest) true r1 r2 = some c ∧
        c ∈ c0 :: rest ∧ c.GetPriority < c0.GetPriority) := by
  have hlen0 : 0 < (c0 :: rest).length := by simp
  have hget0 : (c0 :: rest).get ⟨0, hlen0⟩ = c0 := rfl
  have hpge : ∀ b : Bool,
      SelectChannelWithPriority tracker (c0 :: rest) b r1 r2 =
        SelectChannel tracker
          (if b ∧ priorityGroupEnd (c0 :: rest) < (c0 :: rest).length
            then (c0 :: rest).drop (priorityGroupEnd (c0 :: rest))
            else (c0 :: rest).take (priorityGroupEnd (c0 :: rest))) r1 r2 :=
    fun _ => rfl
  rcases hf : firstDiffIdx c0.GetPriority (c0 :: rest) with _ | i
  · have he : priorityGroupEnd (c0 :: rest) = (c0 :: rest).length := by
      simp [priorityGroupEnd, hpos, hf]
    constructor
    · obtain ⟨c, hc⟩ :=
        selectChannel_isSome tracker (c0 :: rest) r1 r2 (List.cons_ne_nil c0 rest)
      refine ⟨c, ?_, selectChannel_mem tracker _ r1 r2 c hc,
        firstDiffIdx_none _ _ hf c (selectChannel_mem tracker _ r1 r2 c hc)⟩
      rw [hpge false, he]
      simpa using hc
    · rintro ⟨c', hc', hne⟩
      exact absurd (firstDiffIdx_none _ _ hf c' hc') hne
  · obtain ⟨hilen, htake, hgetne⟩ := firstDiffIdx_some _ _ i hf
    have hi0 : 0 < i := by
      rcases Nat.eq_zero_or_pos i with h0 | h
      · subst h0
        exact absurd (hget0 ▸ rfl) (hgetne hilen)
      · exact h
    have he : priorityGroupEnd (c0 :: rest) = i := by
      simp [priorityGroupEnd, hpos, hf]
    constructor
    · have hne : (c0 :: rest).take i ≠ [] := by
        apply List.ne_nil_of_length_pos
        rw [List.length_take]
        omega
      obtain ⟨c, hc⟩ := selectChannel_isSome tracker _ r1 r2 hne
      have hmem := selectChannel_mem tracker _ r1 r2 c hc
      refine ⟨c, ?_, List.take_subset _ _ hmem, htake c hmem⟩
      rw [hpge false, he]
      simpa using hc
    · intro _
      have hne : (c0 :: rest).drop i ≠ [] := by
        apply List.ne_nil_of_length_pos
        rw [List.length_drop]
        omega
      obtain ⟨c, hc⟩ := selectChannel_isSome tracker _ r1 r2 hne
      have hmem := selectChannel_mem tracker _ r1 r2 c hc
      refine ⟨c, ?_, List.drop_subset _ _ hmem, ?_⟩
      · rw [hpge true, he, if_pos ⟨rfl, hilen⟩]
        exact hc
      · exact drop_priority_lt (c0 :: rest) c0.GetPriority i hsorted hlen0
          (by rw [hget0]) hilen hi0 (hgetne hilen) c hmem

/-- Health tracker of the C2 counterexample: channel 1 is tracked with one
failed request, channel 2 is untracked. -/
def c2Tracker : HealthTracker :=
  fun id => if id = 1 then some ⟨1, 1, 0, 1, 0, 1⟩ else none

/-- Counterexample to C2 as stated: on the descending-priority list
`[priority 0, priority −1]` the code does not filter to the leading
equal-priority tier (the guard requires `channels[0].GetPriority() > 0`),
and with `ignoreFirstPriority=false` it selects the lower-priority channel
when that one scores better. -/
theorem c2_priority_filtering_counterexample :
    SelectChannelWithPriority c2Tracker
        [⟨1, none, some 0⟩, ⟨2, none, some (-1)⟩] false 0 0 =
      some ⟨2, none, some (-1)⟩ ∧
    (Channel.GetPriority ⟨2, none, some (-1)⟩ <
      Channel.GetPriority ⟨1, none, some 0⟩) := by
  constructor
  · norm_num [SelectChannelWithPriority, priorityGroupEnd, Channel.GetPriority,
      firstDiffIdx, SelectChannel, betterChannel, getChannelScore, c2Tracker,
      ChannelHealth.score, ChannelHealth.successRate, ChannelHealth.avgLatency,
      durationMilliseconds]
  · norm_num [Channel.GetPriority]

/-- Witness for the amended C2 on a two-tier list with positive priorities. -/
theorem c2_priority_filtering_witness :
    (∃ c, SelectChannelWithPriority c2Tracker
        [⟨1, none, some 2⟩, ⟨2, none, some 1⟩] false 0 0 = some c ∧
      c ∈ [(⟨1, none, some 2⟩ : Channel), ⟨2, none, some 1⟩] ∧
      c.GetPriority = Channel.GetPriority ⟨1, none, some 2⟩) :=
  (c2_priority_filtering c2Tracker ⟨1, none, some 2⟩ [⟨2, none, some 1⟩] 0 0
    (by decide) (by decide)).1

/-! ### Async log batcher (src/model/log_batcher.go) -/

/-- Log rows, identified abstractly. -/
abbrev LBLog := Nat

/-- Fuelled chunking; fuel bounds the number of recursion steps so the
definition computes by structural recursion. -/
def chunksOfAux {α : Type} (n : Nat) : Nat → List α → List (List α)
  | _, [] => []
  | 0, _ :: _ => []
  | fuel + 1, l => l.take n :: chunksOfAux n fuel (l.drop n)

/-- The insert loop's slicing of the drained batch into chunks of `n`. -/
def chunksOf {α : Type} (n : Nat) (l : List α) : List (List α) :=
  chunksOfAux n l.length l

/-- Concatenating the chunks restores the batch (for a positive chunk size
and sufficient fuel). -/
theorem chunksOfAux_flatten {α : Type} (n : Nat) (hn : 1 ≤ n) :
    ∀ (fuel : Nat) (l : List α), l.length ≤ fuel →
      (chunksOfAux n fuel l).flatten = l := by
  intro fuel
  induction fuel with
  | zero =>
      intro l hl
      match l, hl with
      | [], _ => rfl
  | succ fuel ih =>
      intro l hl
      match l with
      | [] => rfl
      | a :: tl =>
          simp only [chunksOfAux, List.flatten_cons]
          rw [ih ((a :: tl).drop n) (by
            rw [List.length_drop]
            simp only [List.length_cons] at hl ⊢
            omega)]
          exact List.take_append_drop n (a :: tl)

/-- Every chunk contains at most `n` rows. -/
theorem chunksOfAux_length {α : Type} (n : Nat) :
    ∀ (fuel : Nat) (l : List α) (ch : List α),
      ch ∈ chunksOfAux n fuel l → ch.length ≤ n := by
  intro fuel
  induction fuel with
  | zero =>
      intro l ch hch
      match l, hch with
      | [], hch => simp [chunksOfAux] at hch
  | succ fuel ih =>
      intro l ch hch
      match l with
      | [] => simp [chunksOfAux] at hch
      | a :: tl =>
          simp only [chunksOfAux, List.mem_cons] at hch
          rcases hch with h | h
          · rw [h]
            simpa using List.length_take_le n (a :: tl)
          · exact ih _ ch h

/-- Go `batchInsertLogs` in one transaction: `chunkFails k` says whether the
`k`-th `CreateInBatches` call errors, `commitOk` whether the final commit
succeeds; any failure rolls the whole transaction back. Returns whether the
batch was committed. -/
def batchInsertLogs (logs : List LBLog) (chunkFails : Nat → Bool)
    (commitOk : Bool) : Bool :=
  if logs = [] then true
  else
    ((List.range (chunksOf 100 logs).length).all fun k => !chunkFails k) && commitOk

/-- Buffer and persisted rows of the log batcher and its store. -/
structure LogBatcherState where
  buffer : List LBLog
  store : List LBLog
deriving DecidableEq, Repr

/-- Go `Add`: append to the buffer under the mutex (the immediate flush that a
full buffer schedules is a separate asynchronous `flush` event). -/
def LogBatcher.add (st : LogBatcherState) (log : LBLog) : LogBatcherState :=
  { st with buffer := st.buffer ++ [log] }

/-- Go `flush`: swap the buffer out under the mutex, then write the drained
slice in one transaction; on failure the batch is dropped, not retried. -/
def LogBatcher.flush (st : LogBatcherState) (chunkFails : Nat → Bool)
    (commitOk : Bool) : LogBatcherState :=
  if st.buffer = [] then st
  else if batchInsertLogs st.buffer chunkFails commitOk then
    { buffer := [], store := st.store ++ st.buffer }
  else
    { buffer := [], store := st.store }

/-- Events of the batcher: `Add` calls, and flushes (periodic ticks,
buffer-full flushes, and the final flush of `Stop`). -/
inductive LBEvent where
  | add (log : LBLog)
  | flush (chunkFails : Nat → Bool) (commitOk : Bool)

/-- One trace step. -/
def LogBatcher.step (st : LogBatcherState) : LBEvent → LogBatcherState
  | .add log => LogBatcher.add st log
  | .flush f c => LogBatcher.flush st f c

/-- Run a trace of events. -/
def LogBatcher.run (st : LogBatcherState) (es : List LBEvent) : LogBatcherState :=
  es.foldl LogBatcher.step st

/-- The logs passed to `Add` along a trace, in order. -/
def addedLogs (es : List LBEvent) : List LBLog :=
  es.filterMap fun e => match e with
    | .add log => some log
    | .flush _ _ => none

/-- Trace invariant: the rows in the store followed by the pending buffer
form a sublist of the initial contents plus everything added. -/
theorem LogBatcher.run_sublist :
    ∀ (es : List LBEvent) (st : LogBatcherState),
      ((LogBatcher.run st es).store ++ (LogBatcher.run st es).buffer).Sublist
        ((st.store ++ st.buffer) ++ addedLogs es) := by
  intro es
  induction es with
  | nil => intro st; simp [LogBatcher.run, addedLogs]
  | cons e es ih =>
      intro st
      have hrun : LogBatcher.run st (e :: es) = LogBatcher.run (LogBatcher.step st e) es := rfl
      rw [hrun]
      have hstep : ((LogBatcher.step st e).store ++ (LogBatcher.step st e).buffer).Sublist
          ((st.store ++ st.buffer) ++ addedLogs [e]) := by
        match e with
        | .add log =>
            simp only [LogBatcher.step, LogBatcher.add, addedLogs, List.filterMap]
            simp [List.append_assoc]
        | .flush f c =>
            simp only [LogBatcher.step, LogBatcher.flush, addedLogs, List.filterMap]
            split
            · simpa using List.sublist_append_left _ _
            · split
              · simp
              · simpa using
                  (List.sublist_append_left st.store st.buffer).trans
                    (List.sublist_append_left _ _)
      have haddcons : addedLogs (e :: es) = addedLogs [e] ++ addedLogs es := by
        cases e <;> simp [addedLogs]
      rw [haddcons, ← List.append_assoc]
      exact (ih _).trans (hstep.append_right (addedLogs es))

/-- C7. Log batcher at-most-once: along any trace of `Add` calls and flushes
(periodic, buffer-full, or the final flush of `Stop`), the rows persisted to
the store form a sublist of the added logs — hence at most N rows after N
adds and, for pairwise-distinct rows, no row stored twice; each flush drains
the buffer and writes the drained slice all-or-nothing in one transaction
chunked at 100 rows per insert, and a failed insert drops the whole drained
batch rather than retrying it. -/
theorem c7_log_batcher_at_most_once (es : List LBEvent) :
    (LogBatcher.run ⟨[], []⟩ es).store.Sublist (addedLogs es) ∧
    (LogBatcher.run ⟨[], []⟩ es).store.length ≤ (addedLogs es).length ∧
    ((addedLogs es).Nodup → (LogBatcher.run ⟨[], []⟩ es).store.Nodup) ∧
    (∀ (st : LogBatcherState) (chunkFails : Nat → Bool) (commitOk : Bool),
      st.buffer ≠ [] →
        (LogBatcher.flush st chunkFails commitOk).buffer = [] ∧
        (LogBatcher.flush st chunkFails commitOk).store =
          (if batchInsertLogs st.buffer chunkFails commitOk
            then st.store ++ st.buffer else st.store)) ∧
    (∀ logs : List LBLog, (chunksOf 100 logs).flatten = logs ∧
      ∀ ch ∈ chunksOf 100 logs, ch.length ≤ 100) := by
  have hsub : (LogBatcher.run ⟨[], []⟩ es).store.Sublist (addedLogs es) := by
    have h := LogBatcher.run_sublist es ⟨[], []⟩
    simp only [List.nil_append] at h
    exact (List.sublist_append_left _ _).trans h
  refine ⟨hsub, hsub.length_le, fun hnd => List.Nodup.sublist hsub hnd, ?_, ?_⟩
  · intro st chunkFails commitOk hbuf
    simp only [LogBatcher.flush, if_neg hbuf]
    split <;> rename_i h <;> simp_all
  · intro logs
    exact ⟨chunksOfAux_flatten 100 (by norm_num) logs.length logs le_rfl,
      fun ch hch => chunksOfAux_length 100 logs.length logs ch hch⟩

/-- Witness for C7 on a concrete trace and a concrete flush. -/
theorem c7_log_batcher_at_most_once_witness :
    (LogBatcher.run ⟨[], []⟩
      [LBEvent.add 1, LBEvent.add 2, LBEvent.flush (fun _ => false) true]).store.Nodup ∧
    (LogBatcher.flush ⟨[5, 6], [7]⟩ (fun _ => false) true).store = [7, 5, 6] := by
  constructor
  · exact (c7_log_batcher_at_most_once
      [LBEvent.add 1, LBEvent.add 2, LBEvent.flush (fun _ => false) true]).2.2.1
      (by decide)
  · have h := ((c7_log_batcher_at_most_once []).2.2.2.1 ⟨[5, 6], [7]⟩
      (fun _ => false) true (by decide)).2
    rw [h]
    decide

/-! ### Request messages (relay/model), shared by the virtual-model resolver
and the semantic cache -/

/-- One part of a multimodal content array (a `"type"`-tagged JSON map). -/
inductive ContentPart where
  | text (t : GoStr)
  | imageUrl (url : GoStr)
  | other (kind : GoStr)
deriving DecidableEq, Repr

/-- The dynamic `Content` field: string, array of parts, or null. -/
inductive MessageContent where
  | str (s : GoStr)
  | parts (ps : List ContentPart)
  | null
deriving DecidableEq, Repr

/-- Go `relaymodel.Message`; fields not consumed by the claims are omitted. -/
structure Message where
  role : GoStr
  content : MessageContent
deriving DecidableEq, Repr

/-! ### Request feature analysis (src/relay/adaptor/openai/helper.go,
package automodel) -/

/-- Go `extractContent`: string content itself; for multimodal arrays the text
parts joined with single spaces; empty otherwise. -/
def extractContent (m : Message) : GoStr :=
  match m.content with
  | .str s => s
  | .parts ps =>
      List.intercalate (gs " ") (ps.filterMap fun p =>
        match p with
        | .text t => some t
        | _ => none)
  | .null => []

/-- Go `hasVisionContent`: the content array has an `image_url`-typed part. -/
def hasVisionContent (m : Message) : Bool :=
  match m.content with
  | .parts ps =>
      ps.any fun p =>
        match p with
        | .imageUrl _ => true
        | _ => false
  | _ => false

/-- The `codePatterns` list of `hasCodeContent`. -/
def codePatterns : List GoStr :=
  [gs "```", gs "def ", gs "func ", gs "function ", gs "class ", gs "import ",
   gs "const ", gs "let ", gs "var ", gs "public ", gs "private ", gs "package "]

/-- Go `hasCodeContent`: the lower-cased text contains one of the patterns. -/
def hasCodeContent (text : GoStr) : Bool :=
  let lower := goToLower text
  codePatterns.any fun pat => goContains lower pat

/-- Membership in the rune ranges of `cjkPattern`. -/
def isCJK (c : Char) : Bool :=
  (0x4e00 ≤ c.toNat && c.toNat ≤ 0x9fff) ||
  (0x3040 ≤ c.toNat && c.toNat ≤ 0x30ff) ||
  (0xac00 ≤ c.toNat && c.toNat ≤ 0xd7af)

/-- Number of CJK runes, the match count of `cjkPattern.FindAllString`. -/
def cjkCount (s : GoStr) : Nat := s.countP isCJK

/-- Go `estimateTokens`: `len(text)/4`, or `len(text)/2` when the CJK rune count
exceeds a quarter of the byte length (Go integer division throughout). -/
def estimateTokens (text : GoStr) : Nat :=
  let charCount := goLen text
  if charCount / 4 < cjkCount text then charCount / 2 else charCount / 4

/-- Features produced by `AnalyzeRequest`. The detected language feeds none
of the fields the claims mention and is omitted. -/
structure RequestFeatures where
  hasCode : Bool
  hasVision : Bool
  tokenCount : Nat
  complexity : ℚ
  isLongContext : Bool
deriving DecidableEq, Repr

/-- Go `estimateComplexity` (its text argument is unused in the source as well). -/
def estimateComplexity (hasCode hasVision isLongContext : Bool)
    (tokenCount : Nat) : ℚ :=
  let complexity : ℚ := 1/2
  let complexity := if hasCode then complexity + 1/5 else complexity
  let complexity := if hasVision then complexity + 1/5 else complexity
  let complexity := if isLongContext then complexity + 1/10 else complexity
  let complexity := if 10000 < tokenCount then complexity + 1/10 else complexity
  if 1 < complexity then 1 else complexity

/-- Go `AnalyzeRequest`. -/
def AnalyzeRequest (messages : List Message) : RequestFeatures :=
  let text := (messages.map fun m => extractContent m ++ gs " ").flatten
  let hasVision := messages.any hasVisionContent
  let hasCode := messages.any fun m => hasCodeContent (extractContent m)
  let tokenCount := estimateTokens text
  let isLongContext := decide (30000 < tokenCount)
  { hasCode := hasCode, hasVision := hasVision, tokenCount := tokenCount,
    complexity := estimateComplexity hasCode hasVision isLongContext tokenCount,
    isLongContext := isLongContext }

/-- The complexity sum exactly as claim C8 words it, without the clamp the
code applies. -/
def claimedComplexity (f : RequestFeatures) : ℚ :=
  1/2 + (if f.hasCode then 1/5 else 0) + (if f.hasVision then 1/5 else 0) +
    (if f.isLongContext then 1/10 else 0) +
    (if 10000 < f.tokenCount then 1/10 else 0)

/-- The token estimate as claim C8 words it: chars/2 exactly when the CJK
character fraction exceeds 25%. -/
def claimedTokenEstimate (text : GoStr) : Nat :=
  if 1/4 < (cjkCount text : ℚ) / (goLen text : ℚ) then goLen text / 2
  else goLen text / 4

/-- CJK runes are at most one per byte. -/
theorem cjkCount_le_goLen (s : GoStr) : cjkCount s ≤ goLen s := by
  induction s with
  | nil => simp [cjkCount, goLen]
  | cons c cs ih =>
      have h1 : 0 < c.utf8Size := Char.utf8Size_pos c
      simp only [cjkCount, List.countP_cons, goLen, List.map_cons, List.sum_cons]
      simp only [cjkCount, goLen] at ih
      split <;> omega

/-- The code's floor-division CJK test coincides with a true 25% fraction
test. -/
theorem cjk_condition_iff (text : GoStr) :
    (goLen text / 4 < cjkCount text) ↔
      (1/4 : ℚ) < (cjkCount text : ℚ) / (goLen text : ℚ) := by
  rcases Nat.eq_zero_or_pos (goLen text) with h0 | hpos
  · have hc0 : cjkCount text = 0 := Nat.le_zero.mp (h0 ▸ cjkCount_le_goLen text)
    rw [h0, hc0]
    norm_num
  · have h1 : (goLen text / 4 < cjkCount text) ↔
        goLen text < 4 * cjkCount text := by
      rw [Nat.div_lt_iff_lt_mul (by norm_num : 0 < 4)]
      omega
    rw [h1, lt_div_iff (by exact_mod_cast hpos : (0:ℚ) < (goLen text : ℚ))]
    constructor
    · intro h
      have h' : (goLen text : ℚ) < 4 * (cjkCount text : ℚ) := by exact_mod_cast h
      linarith
    · intro h
      have h' : (goLen text : ℚ) < 4 * (cjkCount text : ℚ) := by linarith
      exact_mod_cast h'

/-- The complexity computation equals the clamped sum of its contributions. -/
theorem estimateComplexity_min (hc hv lg : Bool) (tk : Nat) :
    estimateComplexity hc hv lg tk =
      min 1 (1/2 + (if hc then (1:ℚ)/5 else 0) + (if hv then (1:ℚ)/5 else 0) +
        (if lg then (1:ℚ)/10 else 0) + (if 10000 < tk then (1:ℚ)/10 else 0)) := by
  cases hc <;> cases hv <;> cases lg <;> by_cases h : 10000 < tk <;>
    simp [estimateComplexity, h, min_def] <;> norm_num

/-- C8 amended. Request feature analysis: `AnalyzeRequest` estimates the
token count as chars/4, or chars/2 when the CJK character fraction exceeds
25% (chars being `len(text)` in bytes); sets `longContext` iff the estimate
exceeds 30 000; and computes the complexity as
`min(1, 0.5 + 0.2·hasCode + 0.2·hasVision + 0.1·longContext +
0.1·(tokens>10 000))` — the sum is clamped at 1.0. -/
theorem c8_request_analysis (messages : List Message) :
    (AnalyzeRequest messages).tokenCount =
      claimedTokenEstimate
        ((messages.map fun m => extractContent m ++ gs " ").flatten) ∧
    ((AnalyzeRequest messages).isLongContext = true ↔
      30000 < (AnalyzeRequest messages).tokenCount) ∧
    (AnalyzeRequest messages).complexity =
      min 1 (claimedComplexity (AnalyzeRequest messages)) := by
  refine ⟨?_, ?_, ?_⟩
  · simp only [AnalyzeRequest, estimateTokens, claimedTokenEstimate]
    by_cases h : goLen ((messages.map fun m => extractContent m ++ gs " ").flatten) / 4 <
        cjkCount ((messages.map fun m => extractContent m ++ gs " ").flatten)
    · rw [if_pos h, if_pos ((cjk_condition_iff _).mp h)]
    · rw [if_neg h, if_neg fun hq => h ((cjk_condition_iff _).mpr hq)]
  · simp only [AnalyzeRequest, decide_eq_true_eq]
  · simp only [AnalyzeRequest, claimedComplexity]
    exact estimateComplexity_min _ _ _ _

/-- Byte length distributes over append. -/
theorem goLen_append (a b : GoStr) : goLen (a ++ b) = goLen a + goLen b := by
  simp [goLen, List.map_append, List.sum_append]

/-- CJK count distributes over append. -/
theorem cjkCount_append (a b : GoStr) :
    cjkCount (a ++ b) = cjkCount a + cjkCount b := by
  simp [cjkCount, List.countP_append]

/-- Byte length of flattened strings. -/
theorem goLen_flatten (l : List GoStr) : goLen l.flatten = (l.map goLen).sum := by
  induction l with
  | nil => simp [goLen]
  | cons a tl ih => simp [List.flatten_cons, goLen_append, ih]

/-- CJK count of flattened strings. -/
theorem cjkCount_flatten (l : List GoStr) :
    cjkCount l.flatten = (l.map cjkCount).sum := by
  induction l with
  | nil => simp [cjkCount]
  | cons a tl ih => simp [List.flatten_cons, cjkCount_append, ih]

/-- Byte length of a repeated rune. -/
theorem goLen_replicate (n : Nat) (c : Char) :
    goLen (List.replicate n c) = n * c.utf8Size := by
  simp [goLen, List.map_replicate, List.sum_replicate, smul_eq_mul]

/-- CJK count of a repeated rune. -/
theorem cjkCount_replicate (n : Nat) (c : Char) :
    cjkCount (List.replicate n c) = if isCJK c then n else 0 := by
  induction n with
  | zero => simp [cjkCount]
  | succ n ih =>
      simp only [List.replicate_succ, cjkCount, List.countP_cons]
      simp only [cjkCount] at ih
      rw [ih]
      by_cases h : isCJK c <;> simp [h]

/-- The long CJK body of the C8 counterexample. -/
def c8Big : GoStr := List.replicate 61000 '中'

/-- Byte length of the long body. -/
theorem goLen_c8Big : goLen c8Big = 183000 := by
  rw [c8Big, goLen_replicate, show ('中').utf8Size = 3 from by decide]

/-- CJK count of the long body. -/
theorem cjkCount_c8Big : cjkCount c8Big = 61000 := by
  rw [c8Big, cjkCount_replicate, if_pos (show isCJK '中' = true from by decide)]

attribute [irreducible] c8Big

/-- Messages carrying code, an image, and a long CJK body, so that all four
complexity contributions fire at once. -/
def c8Messages : List Message :=
  [⟨gs "user", .str (gs "func main()")⟩,
   ⟨gs "user", .parts [.imageUrl (gs "http://x")]⟩,
   ⟨gs "user", .str c8Big⟩]

/-- Counterexample to C8 as stated: on `c8Messages` the code clamps the
complexity to 1.0 while the claimed unclamped sum is 1.1. -/
theorem c8_complexity_counterexample :
    (AnalyzeRequest c8Messages).complexity = 1 ∧
    claimedComplexity (AnalyzeRequest c8Messages) = 11/10 ∧
    (AnalyzeRequest c8Messages).complexity ≠
      claimedComplexity (AnalyzeRequest c8Messages) := by
  have hflat : ((c8Messages.map fun m => extractContent m ++ gs " ").flatten) =
      (gs "func main()" ++ gs " ") ++
        ((gs " ") ++ ((c8Big ++ gs " ") ++ ([] : GoStr))) := rfl
  have hlen : goLen ((c8Messages.map fun m => extractContent m ++ gs " ").flatten)
      = 183014 := by
    rw [hflat]
    simp only [goLen_append, goLen_c8Big]
    norm_num [show goLen (gs "func main()") = 11 from by decide,
      show goLen (gs " ") = 1 from by decide,
      show goLen ([] : GoStr) = 0 from rfl]
  have hcjk : cjkCount ((c8Messages.map fun m => extractContent m ++ gs " ").flatten)
      = 61000 := by
    rw [hflat]
    simp only [cjkCount_append, cjkCount_c8Big]
    norm_num [show cjkCount (gs "func main()") = 0 from by decide,
      show cjkCount (gs " ") = 0 from by decide,
      show cjkCount ([] : GoStr) = 0 from rfl]
  have htok : estimateTokens ((c8Messages.map fun m => extractContent m ++ gs " ").flatten)
      = 91507 := by
    rw [estimateTokens, hlen, hcjk]
    norm_num
  have hcode : (c8Messages.any fun m => hasCodeContent (extractContent m)) = true := by
    decide
  have hvis : c8Messages.any hasVisionContent = true := by decide
  refine ⟨?_, ?_, ?_⟩
  · simp only [AnalyzeRequest, hcode, hvis, htok]
    norm_num [estimateComplexity]
  · simp only [AnalyzeRequest, claimedComplexity, hcode, hvis, htok]
    norm_num
  · simp only [AnalyzeRequest, claimedComplexity, hcode, hvis, htok]
    norm_num [estimateComplexity]

/-! ### Semantic cache (src/relay/cache/semantic_cache.go) -/

/-- FNV-1a 64-bit over a byte sequence (`hashString` works on the UTF-8
bytes of its argument). -/
def hashBytes (bytes : List Nat) : Nat :=
  bytes.foldl (fun h b => ((h ^^^ b) * 1099511628211) % 2 ^ 64)
    14695981039346656037

/-- Go `hashString`. -/
def hashString (s : GoStr) : Nat := hashBytes (utf8Encode s)

/-- Embedding vectors over the 256 hash buckets. -/
abbrev EmbVec := Fin 256 → ℚ

/-- The bucket increments of `generateEmbedding` on normalized text, in loop
order: for n ∈ {2,3,4} every byte n-gram adds `1/n` to its hash bucket, and
every whitespace-delimited word adds `2`. -/
def embIncrements (text : GoStr) : List (Nat × ℚ) :=
  let bytes := utf8Encode text
  (([2, 3, 4] : List Nat).map fun n =>
      (List.range (bytes.length + 1 - n)).map fun i =>
        (hashBytes ((bytes.drop i).take n) % 256, (1 : ℚ) / n)).flatten
    ++ (goFields text).map fun w => (hashBytes (utf8Encode w) % 256, (2 : ℚ))

/-- Go `generateEmbedding`, represented by the raw (unnormalized) bucket sums
of the lower-cased, trimmed text. The code divides the vector by its
Euclidean norm (`math.Sqrt`); cosine similarity is scale-invariant and the
vector key is a function of the vector, so the unnormalized vector carries
the same observable information while keeping the definition computable. -/
def generateEmbedding (text : GoStr) : EmbVec :=
  let t := goToLower (goTrimSpace text)
  fun idx =>
    ((embIncrements t).filterMap fun p =>
      if p.1 = idx.val then some p.2 else none).sum

/-- Go `cosineSimilarity` on the stored (unnormalized) vectors — equal to the
code's cosine of the unit-normalized vectors. -/
noncomputable def cosineSimilarity (a b : EmbVec) : ℝ :=
  let dot : ℚ := Finset.univ.sum fun i => a i * b i
  let magA : ℚ := Finset.univ.sum fun i => a i * a i
  let magB : ℚ := Finset.univ.sum fun i => b i * b i
  if magA = 0 ∨ magB = 0 then 0
  else (dot : ℝ) / (Real.sqrt (magA : ℝ) * Real.sqrt (magB : ℝ))

/-- Go `VectorEntry`. -/
structure VectorEntry where
  vector : EmbVec
  response : GoStr
  model : GoStr
  query : GoStr
  tokens : Nat
  created : Int
  hitCount : Nat

/-- Go `SemanticCache` (the threshold is a float64 compared against real-valued
cosines). -/
structure SemanticCache where
  enabled : Bool
  threshold : ℝ
  maxSize : Nat
  vectors : List (GoStr × VectorEntry)

/-- Right rotation of a 32-bit word (`ROTR` of FIPS 180-4). -/
def rotr32 (n x : Nat) : Nat := (x / 2 ^ n + x % 2 ^ n * 2 ^ (32 - n)) % 2 ^ 32

/-- The 64 SHA-256 round constants `K0..K63` (FIPS 180-4, section 4.2.2),
written in decimal: `K0 = 1116352408 = 0x428a2f98` and so on. -/
def sha256K : List Nat :=
  [1116352408, 1899447441, 3049323471, 3921009573,
   961987163, 1508970993, 2453635748, 2870763221,
   3624381080, 310598401, 607225278, 1426881987,
   1925078388, 2162078206, 2614888103, 3248222580,
   3835390401, 4022224774, 264347078, 604807628,
   770255983, 1249150122, 1555081692, 1996064986,
   2554220882, 2821834349, 2952996808, 3210313671,
   3336571891, 3584528711, 113926993, 338241895,
   666307205, 773529912, 1294757372, 1396182291,
   1695183700, 1986661051, 2177026350, 2456956037,
   2730485921, 2820302411, 3259730800, 3345764771,
   3516065817, 3600352804, 4094571909, 275423344,
   430227734, 506948616, 659060556, 883997877,
   958139571, 1322822218, 1537002063, 1747873779,
   1955562222, 2024104815, 2227730452, 2361852424,
   2428436474, 2756734187, 3204031479, 3329325298]

/-- The SHA-256 initial hash value `H0..H7` (FIPS 180-4, section 5.3.3),
written in decimal: `H0 = 1779033703 = 0x6a09e667` and so on. -/
def sha256Init : List Nat :=
  [1779033703, 3144134277, 1013904242, 2773480762,
   1359893119, 2600822924, 528734635, 1541459225]

/-- Big-endian serialization of a natural number into `w` bytes. -/
def beBytes (w n : Nat) : List Nat :=
  (List.range w).map fun i => n / 2 ^ (8 * (w - 1 - i)) % 256

/-- Big-endian word assembled from a list of bytes. -/
def beWord (bs : List Nat) : Nat := bs.foldl (fun acc b => acc * 256 + b) 0

/-- SHA-256 message padding: a 0x80 byte, zeros to 56 mod 64, and the 64-bit
big-endian bit length. -/
def sha256Pad (msg : List Nat) : List Nat :=
  msg ++ 0x80 :: List.replicate ((119 - msg.length % 64) % 64) 0
      ++ beBytes 8 (msg.length * 8)

/-- The SHA-256 message schedule: the block's 16 words extended to 64. -/
def sha256Schedule (ws : List Nat) : List Nat :=
  (List.range 48).foldl
    (fun w _ =>
      let i := w.length
      let x15 := w.getD (i - 15) 0
      let x2 := w.getD (i - 2) 0
      let s0 := rotr32 7 x15 ^^^ rotr32 18 x15 ^^^ (x15 / 2 ^ 3)
      let s1 := rotr32 17 x2 ^^^ rotr32 19 x2 ^^^ (x2 / 2 ^ 10)
      w ++ [(w.getD (i - 16) 0 + s0 + w.getD (i - 7) 0 + s1) % 2 ^ 32])
    ws

/-- One SHA-256 compression round on the working variables. -/
def sha256Round (k w : Nat)
    (st : Nat × Nat × Nat × Nat × Nat × Nat × Nat × Nat) :
    Nat × Nat × Nat × Nat × Nat × Nat × Nat × Nat :=
  match st with
  | (a, b, c, d, e, f, g, h) =>
    let s1 := rotr32 6 e ^^^ rotr32 11 e ^^^ rotr32 25 e
    let ch := (e &&& f) ^^^ (((2 ^ 32 - 1) ^^^ e) &&& g)
    let t1 := (h + s1 + ch + k + w) % 2 ^ 32
    let s0 := rotr32 2 a ^^^ rotr32 13 a ^^^ rotr32 22 a
    let maj := (a &&& b) ^^^ (a &&& c) ^^^ (b &&& c)
    let t2 := (s0 + maj) % 2 ^ 32
    ((t1 + t2) % 2 ^ 32, a, b, c, (d + t1) % 2 ^ 32, e, f, g)

/-- SHA-256 compression of one 64-byte block into the running hash state. -/
def sha256Compress (hs : List Nat) (block : List Nat) : List Nat :=
  let ws := sha256Schedule ((chunksOf 4 block).map beWord)
  let st0 := (hs.getD 0 0, hs.getD 1 0, hs.getD 2 0, hs.getD 3 0,
              hs.getD 4 0, hs.getD 5 0, hs.getD 6 0, hs.getD 7 0)
  let fin := (List.range 64).foldl
    (fun st i => sha256Round (sha256K.getD i 0) (ws.getD i 0) st) st0
  match fin with
  | (a, b, c, d, e, f, g, h) =>
    [(hs.getD 0 0 + a) % 2 ^ 32, (hs.getD 1 0 + b) % 2 ^ 32,
     (hs.getD 2 0 + c) % 2 ^ 32, (hs.getD 3 0 + d) % 2 ^ 32,
     (hs.getD 4 0 + e) % 2 ^ 32, (hs.getD 5 0 + f) % 2 ^ 32,
     (hs.getD 6 0 + g) % 2 ^ 32, (hs.getD 7 0 + h) % 2 ^ 32]

/-- Go `sha256.Sum256`: the SHA-256 digest of a byte slice, as its 32 bytes
(validated against the FIPS 180-4 test vectors for the empty, one-block and
multi-block messages). -/
def sha256Sum256 (msg : List Nat) : List Nat :=
  ((chunksOf 64 (sha256Pad msg)).foldl sha256Compress sha256Init).flatMap
    (beBytes 4)

/-- Lower-case hexadecimal digit. -/
def hexDigit (n : Nat) : Char := (gs "0123456789abcdef").getD n '0'

/-- Go `fmt.Sprintf("%x", bytes)`: the lower-case hex encoding of a byte
slice, two digits per byte. -/
def hexEncode (bytes : List Nat) : GoStr :=
  bytes.flatMap fun b => [hexDigit (b / 16), hexDigit (b % 16)]

/-- Go `json.Marshal` applied to the `[]float64` vector: the byte string
`[v0,v1,...,v255]`. Each component is rendered by its exact rational's
`toString` — the only departure from Go, whose encoder prints the shortest
decimal form of the float64; that library formatting sits below the
granularity of the float-as-rational embedding, and every use of the
serialization depends only on its being a deterministic function of the
vector. -/
def jsonMarshalVector (v : EmbVec) : List Nat :=
  utf8Encode (gs "[" ++
    List.intercalate (gs ",")
      ((List.finRange 256).map fun i => (toString (v i)).toList) ++ gs "]")

/-- Go `vectorKey` (semantic_cache.go lines 212-217): the lower-case hex of
the first 16 bytes of the SHA-256 digest of the JSON-marshalled vector. -/
def vectorKey (v : EmbVec) : GoStr :=
  hexEncode ((sha256Sum256 (jsonMarshalVector v)).take 16)

/-- Go `extractModelFamily`. -/
def extractModelFamily (model : GoStr) : GoStr :=
  let m := goToLower model
  if goContains m (gs "gpt-4") then gs "gpt4"
  else if goContains m (gs "gpt-3.5") then gs "gpt35"
  else if goContains m (gs "claude") then gs "claude"
  else if goContains m (gs "gemini") then gs "gemini"
  else if goContains m (gs "llama") then gs "llama"
  else if goContains m (gs "mistral") then gs "mistral"
  else m.takeWhile (fun c => c != '-')

/-- Go `isSameModelFamily`. -/
def isSameModelFamily (model1 model2 : GoStr) : Bool :=
  extractModelFamily model1 == extractModelFamily model2

/-- Modelled from the spec: `Message.StringContent` is declared in the relay
model outside the provided sources; per the spec the dynamic content is
`Text(string) | Multipart(seq<Part>) | Empty` and extraction switches on the
variant, so a text variant yields its string, a multipart the concatenation
of its text parts, and anything else the empty string. -/
def Message.stringContent (m : Message) : GoStr :=
  match m.content with
  | .str s => s
  | .parts ps =>
      (ps.filterMap fun p =>
        match p with
        | .text t => some t
        | _ => none).flatten
  | .null => []

/-- Go `extractQueryText`: the last user-role message with nonempty string
content (the loop walks from the end and skips user messages with empty
content). -/
def extractQueryText (messages : List Message) : GoStr :=
  match messages.reverse.find?
      (fun m => m.role == gs "user" && m.stringContent != ([] : GoStr)) with
  | some m => m.stringContent
  | none => []

/-- Go `truncate` (byte-level slicing in Go, rune-level here; no claim observes
the sliced value). -/
def truncate (s : GoStr) (maxLen : Nat) : GoStr :=
  if s.length ≤ maxLen then s else s.take maxLen ++ gs "..."

/-- The eviction score: age in hours minus ten per hit (higher scores are
evicted first). -/
def evictScore (now : Int) (e : VectorEntry) : ℚ :=
  ((now - e.created : Int) : ℚ) / 3600 - (e.hitCount : ℚ) * 10

/-- The comparison of the eviction sort: descending by score (the `less`
closure of `sort.Slice` is `score i > score j`). -/
def evictRel (a b : GoStr × ℚ) : Prop := b.2 ≤ a.2

instance : DecidableRel evictRel :=
  fun a b => inferInstanceAs (Decidable (b.2 ≤ a.2))

instance : IsTotal (GoStr × ℚ) evictRel := ⟨fun a b => le_total b.2 a.2⟩

instance : IsTrans (GoStr × ℚ) evictRel := ⟨fun _ _ _ h1 h2 => le_trans h2 h1⟩

/-- Go `evictLRU`: score every entry, sort descending by score, and delete the
top 10% (at least one). The Go map's randomized iteration order is modelled
by insertion order; `sort.Slice` is modelled by insertion sort (both produce
a permutation sorted by descending score). -/
def evictLRU (now : Int) (vectors : List (GoStr × VectorEntry)) :
    List (GoStr × VectorEntry) :=
  if vectors.isEmpty then vectors
  else
    let entries := vectors.map fun kv => (kv.1, evictScore now kv.2)
    let sorted := List.insertionSort evictRel entries
    let evictCount := max 1 (entries.length / 10)
    let evictKeys := (sorted.take evictCount).map Prod.fst
    vectors.filter fun kv => !(evictKeys.contains kv.1)

/-- Go map assignment `m[key] = entry` on the insertion-ordered view. -/
def upsertEntry (vectors : List (GoStr × VectorEntry)) (key : GoStr)
    (e : VectorEntry) : List (GoStr × VectorEntry) :=
  if vectors.any fun kv => kv.1 == key then
    vectors.map fun kv => if kv.1 == key then (key, e) else kv
  else vectors ++ [(key, e)]

/-- Go `StoreSemantic`. -/
def StoreSemantic (sc : SemanticCache) (model : GoStr)
    (messages : List Message) (response : GoStr) (tokens : Nat) (now : Int) :
    SemanticCache :=
  if !sc.enabled then sc
  else
    let query := extractQueryText messages
    if query = [] then sc
    else
      let vector := generateEmbedding query
      let key := vectorKey vector
      let sc :=
        if sc.maxSize ≤ sc.vectors.length then
          { sc with vectors := evictLRU now sc.vectors }
        else sc
      let entry : VectorEntry :=
        { vector := vector, response := response, model := model,
          query := truncate query 200, tokens := tokens, created := now,
          hitCount := 0 }
      { sc with vectors := upsertEntry sc.vectors key entry }

/-- Go `CheckSemantic`: scan same-family entries for the best cosine score,
accept at or above the threshold, bump the winner's hit count. -/
noncomputable def CheckSemantic (sc : SemanticCache) (model : GoStr)
    (messages : List Message) : (GoStr × ℝ × Bool) × SemanticCache :=
  if !sc.enabled then (([], 0, false), sc)
  else
    let query := extractQueryText messages
    if query = [] then (([], 0, false), sc)
    else
      let queryVector := generateEmbedding query
      let best := sc.vectors.foldl
        (fun acc kv =>
          if !(isSameModelFamily model kv.2.model) then acc
          else
            let score := cosineSimilarity queryVector kv.2.vector
            if acc.2 < score then (some kv, score) else acc)
        ((none : Option (GoStr × VectorEntry)), (0 : ℝ))
      match best.1 with
      | some kv =>
          if sc.threshold ≤ best.2 then
            ((kv.2.response, best.2, true),
              { sc with vectors := sc.vectors.map fun kv' =>
                  if kv'.1 == kv.1 then
                    (kv'.1, { kv'.2 with hitCount := kv'.2.hitCount + 1 })
                  else kv' })
          else (([], best.2, false), sc)
      | none => (([], best.2, false), sc)

/-- Entries of the C6 counterexample: A was created two hours before `now`,
B at `now`; neither has hits. -/
def c6EntryA : VectorEntry :=
  ⟨fun _ => 0, gs "ra", gs "gpt-4o", gs "qa", 1, 0, 0⟩

/-- The fresh entry of the C6 counterexample. -/
def c6EntryB : VectorEntry :=
  ⟨fun _ => 0, gs "rb", gs "gpt-4o", gs "qb", 1, 7200, 0⟩

/-- Counterexample to C6 as stated: at `now = 7200` entry A scores 2 and B
scores 0, so B is the lowest-scoring entry, yet the full cache evicts A and
keeps B — the code deletes the highest `ageHours − 10·hitCount` scores, not
the lowest; `StoreSemantic` at capacity is exactly evict-then-insert. -/
theorem c6_eviction_counterexample :
    (evictLRU 7200 [(gs "A", c6EntryA), (gs "B", c6EntryB)]).map Prod.fst
      = [gs "B"] ∧
    evictScore 7200 c6EntryB < evictScore 7200 c6EntryA ∧
    (StoreSemantic
        ⟨true, (17/20 : ℝ), 2, [(gs "A", c6EntryA), (gs "B", c6EntryB)]⟩
        (gs "gpt-4o") [⟨gs "user", .str (gs "hi")⟩] (gs "resp") 3 7200).vectors =
      upsertEntry (evictLRU 7200 [(gs "A", c6EntryA), (gs "B", c6EntryB)])
        (vectorKey (generateEmbedding (gs "hi")))
        ⟨generateEmbedding (gs "hi"), gs "resp", gs "gpt-4o",
          truncate (gs "hi") 200, 3, 7200, 0⟩ := by
  refine ⟨?_, ?_, ?_⟩
  · norm_num [evictLRU, evictScore, c6EntryA, c6EntryB, List.insertionSort,
      List.orderedInsert, evictRel]
    decide
  · norm_num [evictScore, c6EntryA, c6EntryB]
  · rfl

/-- In a list of pairs with pairwise-distinct keys, the key determines the
pair. -/
theorem eq_of_mem_of_nodup_keys {α β : Type} {l : List (α × β)}
    (h : (l.map Prod.fst).Nodup) {p q : α × β} (hp : p ∈ l) (hq : q ∈ l)
    (hfst : p.1 = q.1) : p = q := by
  induction l with
  | nil => simp at hp
  | cons a tl ih =>
      simp only [List.map_cons, List.nodup_cons] at h
      rcases List.mem_cons.mp hp with hp1 | hp1 <;>
        rcases List.mem_cons.mp hq with hq1 | hq1
      · rw [hp1, hq1]
      · exfalso
        apply h.1
        have ha : a.1 = q.1 := by rw [← hp1]; exact hfst
        rw [ha]
        exact List.mem_map_of_mem Prod.fst hq1
      · exfalso
        apply h.1
        have ha : a.1 = p.1 := by rw [← hq1]; exact hfst.symm
        rw [ha]
        exact List.mem_map_of_mem Prod.fst hp1
      · exact ih h.2 hp1 hq1

/-- Unfolding of `evictLRU` on a nonempty cache. -/
theorem evictLRU_eq (now : Int) (vs : List (GoStr × VectorEntry))
    (hne : vs ≠ []) :
    evictLRU now vs =
      vs.filter fun kv =>
        !((((List.insertionSort evictRel
              (vs.map fun kv => (kv.1, evictScore now kv.2))).take
            (max 1 ((vs.map fun kv => (kv.1, evictScore now kv.2)).length / 10))).map
          Prod.fst).contains kv.1) := by
  simp only [evictLRU]
  rw [if_neg (by simpa using hne)]

/-- The keys of the scored entries are the keys of the cache. -/
theorem entries_keys (now : Int) (vs : List (GoStr × VectorEntry)) :
    (vs.map fun kv => (kv.1, evictScore now kv.2)).map Prod.fst
      = vs.map Prod.fst := by
  rw [List.map_map]
  rfl

/-- Complementary counts over a list. -/
theorem countP_not_add {α : Type} (p : α → Bool) (l : List α) :
    List.countP (fun a => !(p a)) l + List.countP p l = l.length := by
  induction l with
  | nil => simp
  | cons a tl ih =>
      by_cases h : p a <;> simp [List.countP_cons, h, ← ih] <;> omega

/-- Go `evictLRU` removes exactly `min(max(1, n/10), n)` entries when keys are
distinct. -/
theorem evictLRU_length (now : Int) (vs : List (GoStr × VectorEntry))
    (hnd : (vs.map Prod.fst).Nodup) :
    (evictLRU now vs).length =
      vs.length - min (max 1 (vs.length / 10)) vs.length := by
  rcases eq_or_ne vs [] with h | hne
  · subst h
    simp [evictLRU]
  · rw [evictLRU_eq now vs hne]
    set entries := vs.map fun kv => (kv.1, evictScore now kv.2) with hent
    set sorted := List.insertionSort evictRel entries with hsortedDef
    set k := max 1 (entries.length / 10) with hk
    set ek := (sorted.take k).map Prod.fst with hekDef
    have hperm : sorted.Perm entries := List.perm_insertionSort evictRel entries
    have hentkeys : entries.map Prod.fst = vs.map Prod.fst := entries_keys now vs
    have hkeys : (sorted.map Prod.fst).Perm (vs.map Prod.fst) := by
      have h1 := hperm.map Prod.fst
      rw [hentkeys] at h1
      exact h1
    have hndk : (sorted.map Prod.fst).Nodup := hkeys.nodup_iff.mpr hnd
    have hsplit : sorted.map Prod.fst = ek ++ (sorted.drop k).map Prod.fst := by
      rw [hekDef, ← List.map_append, List.take_append_drop]
    have hlsorted : sorted.length = vs.length := by
      rw [hperm.length_eq, hent, List.length_map]
    have hlek : ek.length = min k vs.length := by
      rw [hekDef, List.length_map, List.length_take, hlsorted]
    have hfilterlen :
        (vs.filter fun kv => !(ek.contains kv.1)).length
          = List.countP (fun key => !(ek.contains key)) (vs.map Prod.fst) := by
      rw [List.countP_map, ← List.countP_eq_length_filter]
      rfl
    have hcount : List.countP (fun key => ek.contains key) (vs.map Prod.fst)
        = ek.length := by
      rw [← List.Perm.countP_eq _ hkeys, hsplit, List.countP_append]
      have hall : List.countP (fun key => ek.contains key) ek = ek.length :=
        List.countP_eq_length.mpr fun a ha => by simpa using ha
      have hdisj : ek.Disjoint ((sorted.drop k).map Prod.fst) := by
        have := hndk
        rw [hsplit] at this
        exact (List.nodup_append.mp this).2.2
      have hzero : List.countP (fun key => ek.contains key)
          ((sorted.drop k).map Prod.fst) = 0 :=
        List.countP_eq_zero.mpr fun a ha => by
          simpa using fun hmem => hdisj hmem ha
      rw [hall, hzero]
      omega
    have htotal := countP_not_add (fun key => ek.contains key) (vs.map Prod.fst)
    have hnlen : (vs.map Prod.fst).length = vs.length := List.length_map _ _
    have hklen : k = max 1 (vs.length / 10) := by
      rw [hk, hent, List.length_map]
    rw [hfilterlen]
    omega

/-- Every entry `evictLRU` removes scores at least as high as every entry it
keeps. -/
theorem evictLRU_threshold (now : Int) (vs : List (GoStr × VectorEntry))
    (hnd : (vs.map Prod.fst).Nodup) :
    ∀ kv ∈ vs, kv ∉ evictLRU now vs →
      ∀ kv' ∈ evictLRU now vs, evictScore now kv'.2 ≤ evictScore now kv.2 := by
  intro kv hkv hdrop kv' hkv'
  have hne : vs ≠ [] := by
    intro h
    rw [h] at hkv
    simp at hkv
  rw [evictLRU_eq now vs hne] at hdrop hkv'
  set entries := vs.map fun kv => (kv.1, evictScore now kv.2) with hent
  set sorted := List.insertionSort evictRel entries with hsortedDef
  set k := max 1 (entries.length / 10) with hk
  set ek := (sorted.take k).map Prod.fst with hekDef
  have hperm : sorted.Perm entries := List.perm_insertionSort evictRel entries
  have hentkeys : entries.map Prod.fst = vs.map Prod.fst := entries_keys now vs
  have hkeys : (sorted.map Prod.fst).Perm (vs.map Prod.fst) := by
    have h1 := hperm.map Prod.fst
    rw [hentkeys] at h1
    exact h1
  have hndk : (sorted.map Prod.fst).Nodup := hkeys.nodup_iff.mpr hnd
  -- the dropped entry's scored pair sits in the evicted slice
  have hkvmem : (kv.1, evictScore now kv.2) ∈ sorted :=
    (hperm.mem_iff).mpr (List.mem_map_of_mem _ hkv)
  have hkvkey : kv.1 ∈ ek := by
    by_contra hcon
    apply hdrop
    rw [List.mem_filter]
    refine ⟨hkv, ?_⟩
    simpa using hcon
  obtain ⟨pair, hpairmem, hpairkey⟩ := List.mem_map.mp hkvkey
  have hpairsorted : pair ∈ sorted := (List.take_sublist k sorted).subset hpairmem
  have hpaireq : pair = (kv.1, evictScore now kv.2) :=
    eq_of_mem_of_nodup_keys hndk hpairsorted hkvmem hpairkey
  -- the kept entry's scored pair sits in the kept slice
  rw [List.mem_filter] at hkv'
  obtain ⟨hkv'vs, hkv'keep⟩ := hkv'
  have hkv'mem : (kv'.1, evictScore now kv'.2) ∈ sorted :=
    (hperm.mem_iff).mpr (List.mem_map_of_mem _ hkv'vs)
  have hkv'drop : (kv'.1, evictScore now kv'.2) ∈ sorted.drop k := by
    have hsplitmem := hkv'mem
    rw [← List.take_append_drop k sorted] at hsplitmem
    rcases List.mem_append.mp hsplitmem with h | h
    · exfalso
      have : kv'.1 ∈ ek := by
        rw [hekDef]
        exact List.mem_map_of_mem Prod.fst h
      simp only [Bool.not_eq_true'] at hkv'keep
      simp [this] at hkv'keep
    · exact h
  -- sortedness relates the two slices
  have hsorted : List.Sorted evictRel sorted :=
    List.sorted_insertionSort evictRel entries
  have hpw := List.pairwise_append.mp
    (by rw [List.take_append_drop k sorted]; exact hsorted)
  have := hpw.2.2 pair (hpaireq ▸ hpairmem) _ hkv'drop
  rw [hpaireq] at this
  exact this

/-- C6 amended. Semantic-cache eviction: whenever `StoreSemantic` runs with
the cache holding at least `maxSize` entries, before inserting the new entry
it evicts the highest-scoring `max(1, ⌊n/10⌋)` entries, where an entry's
score is its age in hours minus 10 times its hit count (higher = older and
less used). -/
theorem c6_store_semantic_eviction (sc : SemanticCache) (model : GoStr)
    (messages : List Message) (response : GoStr) (tokens : Nat) (now : Int)
    (hen : sc.enabled = true) (hq : extractQueryText messages ≠ [])
    (hfull : sc.maxSize ≤ sc.vectors.length)
    (hnd : (sc.vectors.map Prod.fst).Nodup) :
    (StoreSemantic sc model messages response tokens now =
      { sc with vectors :=
          (upsertEntry (evictLRU now sc.vectors)
            (vectorKey (generateEmbedding (extractQueryText messages)))
            ⟨generateEmbedding (extractQueryText messages), response, model,
              truncate (extractQueryText messages) 200, tokens, now, 0⟩) }) ∧
    (evictLRU now sc.vectors).length =
      sc.vectors.length - min (max 1 (sc.vectors.length / 10)) sc.vectors.length ∧
    (∀ kv ∈ sc.vectors, kv ∉ evictLRU now sc.vectors →
      ∀ kv' ∈ evictLRU now sc.vectors,
        evictScore now kv'.2 ≤ evictScore now kv.2) := by
  refine ⟨?_, evictLRU_length now sc.vectors hnd,
    evictLRU_threshold now sc.vectors hnd⟩
  simp only [StoreSemantic, hen, Bool.not_true, Bool.false_eq_true, if_false,
    if_neg hq, if_pos hfull]

/-- Witness for the amended C6 at a concrete full cache. -/
theorem c6_store_semantic_eviction_witness :
    (evictLRU 7200 [(gs "A", c6EntryA), (gs "B", c6EntryB)]).length =
      ([(gs "A", c6EntryA), (gs "B", c6EntryB)] : List (GoStr × VectorEntry)).length -
        min (max 1 (([(gs "A", c6EntryA), (gs "B", c6EntryB)] :
            List (GoStr × VectorEntry)).length / 10))
          ([(gs "A", c6EntryA), (gs "B", c6EntryB)] :
            List (GoStr × VectorEntry)).length :=
  (c6_store_semantic_eviction
    ⟨true, (17/20 : ℝ), 2, [(gs "A", c6EntryA), (gs "B", c6EntryB)]⟩
    (gs "gpt-4o") [⟨gs "user", .str (gs "hi")⟩] (gs "resp") 3 7200 rfl
    (by decide) (by decide) (by decide)).2.1

/-- Claim-side characterization of the cache key: the content of the last
user-role message with nonempty string content. -/
def lastNonEmptyUserContent : List Message → Option GoStr
  | [] => none
  | m :: rest =>
      match lastNonEmptyUserContent rest with
      | some c => some c
      | none =>
          if m.role = gs "user" ∧ m.stringContent ≠ [] then
            some m.stringContent
          else none

/-- The backwards scan of `extractQueryText` computes exactly the last
nonempty user content. -/
theorem lastNonEmptyUserContent_eq_find (l : List Message) :
    lastNonEmptyUserContent l =
      (l.reverse.find? fun m =>
        m.role == gs "user" && m.stringContent != ([] : GoStr)).map
        Message.stringContent := by
  induction l with
  | nil => rfl
  | cons m rest ih =>
      rcases h : rest.reverse.find?
          (fun m => m.role == gs "user" && m.stringContent != ([] : GoStr))
        with _ | m'
      · by_cases hc : m.role = gs "user" ∧ m.stringContent ≠ []
        · have hb : (m.role == gs "user" && m.stringContent != ([] : GoStr))
              = true := by
            simp only [Bool.and_eq_true, beq_iff_eq, bne_iff_ne]
            exact ⟨hc.1, hc.2⟩
          simp [lastNonEmptyUserContent, List.reverse_cons, List.find?_append,
            ih, h, hc, List.find?_cons, hb]
        · have hb : (m.role == gs "user" && m.stringContent != ([] : GoStr))
              = false := by
            by_cases hr : m.role = gs "user"
            · have hcc : m.stringContent = [] := by
                push_neg at hc
                exact hc hr
              simp [hr, hcc]
            · simp [hr]
          simp [lastNonEmptyUserContent, List.reverse_cons, List.find?_append,
            ih, h, hc, List.find?_cons, hb]
      · simp [lastNonEmptyUserContent, List.reverse_cons, List.find?_append,
          ih, h]

/-- Go `extractQueryText` factors through `lastNonEmptyUserContent`. -/
theorem extractQueryText_eq_last (messages : List Message) :
    extractQueryText messages = (lastNonEmptyUserContent messages).getD [] := by
  rw [lastNonEmptyUserContent_eq_find]
  rcases h : messages.reverse.find?
      (fun m => m.role == gs "user" && m.stringContent != ([] : GoStr))
    with _ | m'
  · simp [extractQueryText, h]
  · simp [extractQueryText, h]

/-- C10. The semantic cache keys only on the last non-empty user-role
message: two conversations with the same model whose last non-empty user
messages have equal content produce the same extracted query text and the
same embedding vector, and `CheckSemantic`/`StoreSemantic` behave
identically on them regardless of any differences in earlier user turns,
system prompts, or assistant messages — so a response cached from one
conversation is returned for the other. -/
theorem c10_cache_keyed_on_last_user_message (sc : SemanticCache)
    (model : GoStr) (m1 m2 : List Message) (c : GoStr)
    (h1 : lastNonEmptyUserContent m1 = some c)
    (h2 : lastNonEmptyUserContent m2 = some c) :
    extractQueryText m1 = extractQueryText m2 ∧
    generateEmbedding (extractQueryText m1)
      = generateEmbedding (extractQueryText m2) ∧
    CheckSemantic sc model m1 = CheckSemantic sc model m2 ∧
    ∀ (response : GoStr) (tokens : Nat) (now : Int),
      StoreSemantic sc model m1 response tokens now =
        StoreSemantic sc model m2 response tokens now := by
  have he : extractQueryText m1 = extractQueryText m2 := by
    rw [extractQueryText_eq_last, extractQueryText_eq_last, h1, h2]
  refine ⟨he, by rw [he], ?_, ?_⟩
  · simp only [CheckSemantic, he]
  · intro response tokens now
    simp only [StoreSemantic, he]

/-- Witness for C10: two conversations with different system/assistant
context but the same last user message are treated identically. -/
theorem c10_cache_keyed_on_last_user_message_witness :
    CheckSemantic ⟨true, (17/20 : ℝ), 100, []⟩ (gs "gpt-4o")
        [⟨gs "system", .str (gs "a")⟩, ⟨gs "user", .str (gs "hi")⟩] =
      CheckSemantic ⟨true, (17/20 : ℝ), 100, []⟩ (gs "gpt-4o")
        [⟨gs "user", .str (gs "bye")⟩, ⟨gs "assistant", .str (gs "x")⟩,
          ⟨gs "user", .str (gs "hi")⟩] :=
  (c10_cache_keyed_on_last_user_message ⟨true, (17/20 : ℝ), 100, []⟩
    (gs "gpt-4o")
    [⟨gs "system", .str (gs "a")⟩, ⟨gs "user", .str (gs "hi")⟩]
    [⟨gs "user", .str (gs "bye")⟩, ⟨gs "assistant", .str (gs "x")⟩,
      ⟨gs "user", .str (gs "hi")⟩]
    (gs "hi") (by decide) (by decide)).2.2.1

/-- Witness for C3: the general clause at a concrete entry and the scenario's
recovery call at second 2. -/
theorem c3_rate_limiter_window_witness :
    ((ShardedRateLimiter.requestEntry (some ⟨[0, 0], 0⟩) 10 3 1).1 = true ↔
      (dropExpired ((some (⟨[0, 0], 0⟩ : RateLimitEntry)).getD
        ⟨[], 10⟩).timestamps (10 - 1)).length < 3) ∧
    (ShardedRateLimiter.requestEntry (some ⟨[0, 0, 0, 0, 0], 0⟩) 2 5 1).1
      = true := by
  refine ⟨(c3_rate_limiter_window.1 (some ⟨[0, 0], 0⟩) 10 3 1 (by decide)).1, ?_⟩
  have h := c3_rate_limiter_window.2
  exact h.2.2.2 2 (by decide)

end Spec2Proof